import Mathlib

/-!
# gurl: a terminal HTTP client built on a message-driven update loop

A shallow embedding of the four source files

* `ui/addressbar/ui.go` (address input and its parsing),
* `ui/viewport/ui.go`   (the tabbed viewer),
* `ui/statusbar/ui.go`  (status line and spinner),
* `main.go`             (the root dispatcher and the request lifecycle),

followed by theorems about them.

Conventions of the embedding:

* a Go `string` is its sequence of bytes (`GoString`);
* a `tea.Msg` is a value of the sum type `Msg`;
* a `tea.Cmd` is the list of primitive deferred units it schedules: `nil` is
  the empty list and `tea.Batch` is concatenation;
* a Go run-time panic inside an update is the result `none`;
* code of third-party libraries whose behaviour is not fixed by this
  repository (text input, spinner, Unicode case tables, rendered heights,
  header-key canonicalisation) and the four tab sub-views, whose sources are
  not among the embedded files, are fields of `Library`.
-/

namespace Gurl

/-! ## Go strings -/

/-- A Go string: an immutable sequence of bytes. -/
abbrev GoString := List UInt8

/-- The bytes of one rune, as the Go conversion `string(r)` produces them. -/
def runeBytes (r : Char) : GoString := String.utf8EncodeChar r

/-- The bytes of a rune slice, as the Go conversion `string(runes)` produces them. -/
def runesBytes (rs : List Char) : GoString := rs.flatMap runeBytes

/-- The bytes of a string literal. -/
def str (s : String) : GoString := runesBytes s.data

/-- The space byte, the cutset and the separator used by `GetAddress`. -/
def space : UInt8 := 32

namespace strings

/-- Go `strings.trimLeftByte`: drop leading bytes equal to `c`. -/
def trimLeftByte : GoString → UInt8 → GoString
  | [], _ => []
  | b :: s, c => if b = c then trimLeftByte s c else b :: s

/-- Go `strings.trimRightByte`: drop trailing bytes equal to `c`. -/
def trimRightByte (s : GoString) (c : UInt8) : GoString :=
  (trimLeftByte s.reverse c).reverse

/-- Go `strings.Trim(s, cutset)` for a cutset of one ASCII byte `c`, the only
way the repository calls it: `trimLeftByte(trimRightByte(s, c), c)`. -/
def Trim (s : GoString) (c : UInt8) : GoString :=
  trimLeftByte (trimRightByte s c) c

/-- Go `strings.Split(s, sep)` for a separator of one byte `c`, the only way
the repository calls it: the pieces of `s` between consecutive occurrences of
`c`. The result is never empty; `Split "" c` is the one-element slice `[""]`. -/
def Split : GoString → UInt8 → List GoString
  | [], _ => [[]]
  | b :: s, c =>
    if b = c then [] :: Split s c
    else
      match Split s c with
      | [] => [[b]]
      | t :: ts => (b :: t) :: ts

/-- The ASCII branch of Go `strings.ToUpper`: bytes `a`..`z` lose 32. -/
def upperByte (c : UInt8) : UInt8 :=
  if 97 ≤ c ∧ c ≤ 122 then c - 32 else c

/-- Go `strings.ToUpper`. A string of ASCII bytes is mapped byte by byte;
any other string goes through `strings.Map(unicode.ToUpper, s)`, which depends
on the Unicode tables and is the parameter `unicodeUpper`. -/
def ToUpper (unicodeUpper : GoString → GoString) (s : GoString) : GoString :=
  if s.all (fun c => c < 128) then
    if s.any (fun c => 97 ≤ c ∧ c ≤ 122) then s.map upperByte else s
  else unicodeUpper s

end strings

/-! ## Messages -/

/-- Modelled from the spec: `Address`, declared in the repository's `lib`
package, whose source is not among the embedded files; the parsed request
target with a method token and a url. -/
structure Address where
  Method : GoString
  Url : GoString
deriving DecidableEq, Repr

/-- Modelled from the spec: `Status`, declared in the repository's `lib`
package, whose source is not among the embedded files; one of IDLE,
PROCESSING, ERROR or an integer HTTP status code. -/
inductive Status where
  | IDLE
  | PROCESSING
  | ERROR
  | code (value : Int)
deriving DecidableEq, Repr

/-- Modelled from the spec: `Trigger`, declared in the repository's `lib`
package, whose source is not among the embedded files; `NewRequest` is the
request-trigger, any other value of the type is `other`. -/
inductive Trigger where
  | NewRequest
  | other (n : Nat)
deriving DecidableEq, Repr

/-- Key types of `tea.KeyMsg` (bubbletea). `KeyOther` stands for every key
type not listed, with the name its `String()` gives. -/
inductive KeyType where
  | KeyRunes
  | KeyBackspace
  | KeyEnter
  | KeyEsc
  | KeyTab
  | KeyShiftTab
  | KeyCtrlC
  | KeyOther (name : GoString)
deriving DecidableEq, Repr

/-- A `tea.KeyMsg` (bubbletea `Key`); `Typ` is its field `Type`. -/
structure Key where
  Typ : KeyType
  Runes : List Char
  Alt : Bool
deriving DecidableEq, Repr

/-- The name bubbletea gives a key type that is not `KeyRunes`. -/
def KeyType.name : KeyType → GoString
  | .KeyRunes => []
  | .KeyBackspace => str "backspace"
  | .KeyEnter => str "enter"
  | .KeyEsc => str "esc"
  | .KeyTab => str "tab"
  | .KeyShiftTab => str "shift+tab"
  | .KeyCtrlC => str "ctrl+c"
  | .KeyOther name => name

/-- Bubbletea `Key.String()`: an optional `alt+`, then the runes of a
`KeyRunes` key or the name of any other key. -/
def Key.String (k : Key) : GoString :=
  (if k.Alt then str "alt+" else []) ++
    (match k.Typ with
     | .KeyRunes => runesBytes k.Runes
     | t => t.name)

/-- An HTTP header map: canonical key to values, as an association list. -/
abbrev Header := List (GoString × List GoString)

/-- A `tea.Msg`: the message kinds the four source files switch on, and
`external` for every message of a library (spinner tick, cursor blink). -/
inductive Msg where
  | KeyMsg (k : Key)
  | WindowSizeMsg (Width Height : Int)
  | FreeText (text : GoString)
  | Trigger (t : Trigger)
  | Response (Body : GoString)
  | statusUpdate (s : Status)
  | commandInput (text : GoString)
  | ShortMessage (text : GoString)
  | Mode (text : GoString)
  | headerItem (key value : GoString)
  | requestHeaders (h : Header)
  | external (tag : Nat)
deriving DecidableEq, Repr

/-! ## Commands -/

/-- State of the bubbles spinner, kept abstract. -/
structure spinner.Model where
  internals : Nat
deriving DecidableEq, Repr

/-- A primitive deferred unit of work (one non-nil, non-batch `tea.Cmd`). -/
inductive Prim where
  /-- The `lib.SubmitNewRequest` command the address bar returns on enter. -/
  | SubmitNewRequest
  /-- The closure returned by `model.submitRequest(address)`. -/
  | submitRequest (address : Address)
  /-- The closure returned by `getFreeTextCommand(cmd)`. -/
  | freeText (cmd : GoString)
  /-- The command `tea.Quit`. -/
  | Quit
  /-- The method value `model.spinner.Tick`. -/
  | spinnerTick (s : spinner.Model)
  /-- The closure of the viewport that re-emits its header set. -/
  | requestHeaders (h : Option Header)
  /-- A command created inside a library or a tab sub-view. -/
  | external (tag : Nat)
deriving DecidableEq, Repr

/-- A `tea.Cmd`, as the list of primitive units it schedules. -/
abbrev Cmd := List Prim

/-- The commands a library or a tab sub-view hands back, by their tags: code
outside the root cannot build the root's own closures. -/
def external (tags : List Nat) : Cmd := tags.map Prim.external

/-- The request lifecycles a command schedules, by their address. -/
def Cmd.lifecycles (c : Cmd) : List Address :=
  c.filterMap (fun p => match p with
    | .submitRequest a => some a
    | _ => none)

/-- Modelled from the spec: the message `lib.SubmitNewRequest` resolves to,
declared in the repository's `lib` package, whose source is not among the
embedded files; submitting emits the request-trigger message. -/
def SubmitNewRequest.msg : Msg := .Trigger .NewRequest

/-! ## Key bindings (bubbles `key`) -/

/-- A bubbles `key.Binding`: its keys and whether it was disabled. -/
structure key.Binding where
  keys : List GoString
  disabled : Bool
deriving DecidableEq, Repr

/-- Bubbles `key.NewBinding(key.WithKeys(keys...))`. -/
def key.NewBinding (keys : List GoString) : key.Binding :=
  { keys := keys, disabled := false }

/-- Bubbles `Binding.Enabled()`. -/
def key.Binding.Enabled (b : key.Binding) : Bool :=
  !b.disabled && !b.keys.isEmpty

/-- Bubbles `key.Matches(k, b)`: the key's `String()` is one of the binding's
keys and the binding is enabled. -/
def key.Matches (k : Key) (b : key.Binding) : Bool :=
  b.keys.any (fun v => decide (k.String = v) && b.Enabled)

/-! ## Component states -/

/-- State of the bubbles text input: the runes typed so far, and the rest
(cursor, focus, blink) kept abstract. -/
structure textinput.Model where
  value : List Char
  internals : Nat
deriving DecidableEq, Repr

/-- Bubbles `textinput.Model.Value()`: `string(m.value)`. -/
def textinput.Model.Value (m : textinput.Model) : GoString :=
  runesBytes m.value

/-- The address bar, `addressbar.Model`. -/
structure addressbar.Model where
  input : textinput.Model
deriving DecidableEq, Repr

/-- State of one tab sub-view (`responseModel`, `requestBodyModel`,
`headersModel`, `responseHeadersModel`), kept abstract. -/
structure SubView where
  internals : Nat
deriving DecidableEq, Repr

/-- The viewport's `keymap`. -/
structure viewport.keymap where
  nextTab : key.Binding
  previousTab : key.Binding
deriving DecidableEq, Repr

/-- The viewport, `viewport.Model`. `headers` is `none` for Go's nil map.
`Width` is the field `main.go` assigns in `resizeViewport`. -/
structure viewport.Model where
  activeTab : Int
  keybinds : viewport.keymap
  tabs : List GoString
  responseBody : GoString
  enabled : Bool
  height : Int
  Width : Int
  headers : Option Header
  responseModel : SubView
  requestBodyModel : SubView
  headersModel : SubView
  responseHeadersModel : SubView
deriving DecidableEq, Repr

/-- The status bar, `statusbar.Model`. -/
structure statusbar.Model where
  spinner : spinner.Model
  spinning : Bool
  width : Int
  status : Status
  commandEntry : GoString
  message : GoString
  mode : GoString
deriving DecidableEq, Repr

/-- The root's `keymap`. -/
structure keymap where
  nextTab : key.Binding
  quit : key.Binding
  toggleCommandMode : key.Binding
deriving DecidableEq, Repr

/-- The root component, `model` of `main.go`. -/
structure model where
  keybinds : keymap
  addressBar : addressbar.Model
  viewport : viewport.Model
  statusBar : statusbar.Model
  activeRegion : Int
  commandMode : Bool
  command : GoString
deriving DecidableEq, Repr

/-! ## Collaborators outside the embedded sources -/

/-- The behaviour the embedded code takes from elsewhere. -/
structure Library where
  /-- Go `strings.Map(unicode.ToUpper, s)`, for a string with a non-ASCII byte. -/
  unicodeUpper : GoString → GoString
  /-- Bubbles `textinput.Model.Update`. -/
  textinputUpdate : textinput.Model → Msg → textinput.Model × List Nat
  /-- Bubbles `spinner.Model.Update`. -/
  spinnerUpdate : spinner.Model → Msg → spinner.Model × List Nat
  /-- Go `textproto.CanonicalMIMEHeaderKey`. -/
  canonicalKey : GoString → GoString
  /-- The `Update` of the sub-view `responseModel`. -/
  responseUpdate : SubView → Msg → SubView × List Nat
  /-- The `Update` of the sub-view `requestBodyModel`. -/
  requestBodyUpdate : SubView → Msg → SubView × List Nat
  /-- The `Update` of the sub-view `headersModel`. -/
  headersUpdate : SubView → Msg → SubView × List Nat
  /-- The `Update` of the sub-view `responseHeadersModel`. -/
  responseHeadersUpdate : SubView → Msg → SubView × List Nat
  /-- The constructor `newResponseHeadersModel()`. -/
  newResponseHeadersModel : SubView
  /-- The value `textinput.New()` after the settings of `NewAddressBar`. -/
  newTextInput : textinput.Model
  /-- The value `spinner.New()` with the `Dot` spinner. -/
  newSpinner : spinner.Model
  /-- The value `lipgloss.Height(statusBar.View())`. -/
  statusBarHeight : statusbar.Model → Int
  /-- The value `lipgloss.Height(addressBar.View())`. -/
  addressBarHeight : addressbar.Model → Int

/-- A library whose collaborators do nothing, to evaluate the embedding on
concrete inputs. -/
def quietLibrary : Library where
  unicodeUpper := fun s => s
  textinputUpdate := fun t _ => (t, [])
  spinnerUpdate := fun s _ => (s, [])
  canonicalKey := fun k => k
  responseUpdate := fun v _ => (v, [])
  requestBodyUpdate := fun v _ => (v, [])
  headersUpdate := fun v _ => (v, [])
  responseHeadersUpdate := fun v _ => (v, [])
  newResponseHeadersModel := ⟨0⟩
  newTextInput := ⟨[], 0⟩
  newSpinner := ⟨0⟩
  statusBarHeight := fun _ => 1
  addressBarHeight := fun _ => 1

/-! ## `ui/addressbar/ui.go` -/

/-- The constructor `NewAddressBar`. -/
def addressbar.NewAddressBar (lib : Library) : addressbar.Model :=
  { input := lib.newTextInput }

/-- The method `addressbar.Model.Update`: enter returns the model and
`lib.SubmitNewRequest`; everything else goes to the text input. -/
def addressbar.Model.Update (lib : Library) (model : addressbar.Model) (msg : Msg) :
    addressbar.Model × Cmd :=
  match msg with
  | .KeyMsg k =>
    if k.String = str "enter" then (model, [Prim.SubmitNewRequest])
    else
      let r := lib.textinputUpdate model.input msg
      ({ model with input := r.1 }, external r.2)
  | _ =>
    let r := lib.textinputUpdate model.input msg
    ({ model with input := r.1 }, external r.2)

/-- The method `addressbar.Model.GetAddress`. The Go function returns a pair
`(lib.Address, error)`: on the empty trimmed text the zero address and
`errors.New("")`, here `some []`; otherwise the address and a nil error.
`parts[len(parts)-1]` and `parts[0]` cannot go out of range, `Split` never
returning an empty slice. -/
def addressbar.Model.GetAddress (lib : Library) (model : addressbar.Model) :
    Address × Option GoString :=
  let trimmedAddr := strings.Trim model.input.Value space
  if trimmedAddr.length = 0 then
    ({ Method := [], Url := [] }, some [])
  else
    let parts := strings.Split trimmedAddr space
    let endpoint := parts.getLastD []
    let method := if parts.length > 1 then parts.headD [] else str "GET"
    ({ Method := strings.ToUpper lib.unicodeUpper method, Url := endpoint }, none)

/-! ## `ui/viewport/ui.go` -/

/-- The constructor `NewViewport`: four tabs, the two tab keys, an empty
header map; every other field has its zero value. -/
def viewport.NewViewport (lib : Library) : viewport.Model :=
  { activeTab := 0
    keybinds :=
      { nextTab := key.NewBinding [str "shift+f"]
        previousTab := key.NewBinding [str "shift+b"] }
    tabs := [str "Headers (:q)", str "Request Body (:w)", str "Response (:e)",
      str "Response Headers (:r)"]
    responseBody := []
    enabled := false
    height := 0
    Width := 0
    headers := some []
    responseModel := ⟨0⟩
    requestBodyModel := ⟨0⟩
    headersModel := ⟨0⟩
    responseHeadersModel := lib.newResponseHeadersModel }

/-- The method `viewport.Model.SetResponse`: it returns its argument as a
message and assigns nothing; the result is the receiver after the call and
the returned message. -/
def viewport.Model.SetResponse (model : viewport.Model) (response : GoString) :
    viewport.Model × Msg :=
  (model, .Response response)

/-- The method `viewport.Model.SetEnabled`. -/
def viewport.Model.SetEnabled (model : viewport.Model) (enabled : Bool) : viewport.Model :=
  { model with enabled := enabled }

/-- Modelled from the spec: `viewport.Model.SetHeight`, called by
`resizeViewport` and not defined in the embedded viewport source; the root
hands the viewport its remaining vertical space. -/
def viewport.Model.SetHeight (model : viewport.Model) (height : Int) : viewport.Model :=
  { model with height := height }

/-- Go `http.Header.Set(key, value)`: the canonical key is bound to the
one-element slice `[value]`. On a nil map the assignment panics (`none`). -/
def Header.Set (lib : Library) (h : Option Header) (key value : GoString) : Option Header :=
  match h with
  | none => none
  | some entries =>
    some ((lib.canonicalKey key, [value]) ::
      entries.filter (fun e => decide (e.1 ≠ lib.canonicalKey key)))

/-- The tail of `viewport.Model.Update` (lines 117 to 131): the message goes
to the four sub-views in turn and their commands are batched. -/
def viewport.Model.updateTabs (lib : Library) (model : viewport.Model) (msg : Msg) :
    viewport.Model × Cmd :=
  let r1 := lib.responseUpdate model.responseModel msg
  let r2 := lib.requestBodyUpdate model.requestBodyModel msg
  let r3 := lib.headersUpdate model.headersModel msg
  let r4 := lib.responseHeadersUpdate model.responseHeadersModel msg
  ({ model with
      responseModel := r1.1
      requestBodyModel := r2.1
      headersModel := r3.1
      responseHeadersModel := r4.1 },
    external r1.2 ++ external r2.2 ++ external r3.2 ++ external r4.2)

/-- The method `viewport.Model.Update`. `none` is a Go panic: the remainder
by `len(model.tabs)` when there is no tab, the assignment into a nil header
map. The previous-tab case has no `return` and falls to the sub-views. -/
def viewport.Model.Update (lib : Library) (model : viewport.Model) (msg : Msg) :
    Option (viewport.Model × Cmd) :=
  match msg with
  | .KeyMsg k =>
    if key.Matches k model.keybinds.nextTab then
      if model.tabs.length = 0 then none
      else
        some ({ model with
          activeTab := Int.tmod (model.activeTab + 1) (model.tabs.length : Int) }, [])
    else if key.Matches k model.keybinds.previousTab then
      let newTab : Int := if model.activeTab = 0 then 2 else model.activeTab - 1
      some (viewport.Model.updateTabs lib { model with activeTab := newTab } msg)
    else
      some (viewport.Model.updateTabs lib model msg)
  | .FreeText text =>
    if text = str ":q" then some ({ model with activeTab := 0 }, [])
    else if text = str ":w" then some ({ model with activeTab := 1 }, [])
    else if text = str ":e" then some ({ model with activeTab := 2 }, [])
    else if text = str ":r" then some ({ model with activeTab := 3 }, [])
    else some (model, [])
  | .WindowSizeMsg width height =>
    let resizeMsg := Msg.WindowSizeMsg width (height - 3)
    some ({ model with
      responseModel := (lib.responseUpdate model.responseModel resizeMsg).1
      requestBodyModel := (lib.requestBodyUpdate model.requestBodyModel resizeMsg).1
      headersModel := (lib.headersUpdate model.headersModel resizeMsg).1
      responseHeadersModel :=
        (lib.responseHeadersUpdate model.responseHeadersModel resizeMsg).1 }, [])
  | .headerItem key value =>
    match Header.Set lib model.headers key value with
    | none => none
    | some h => some ({ model with headers := some h }, [Prim.requestHeaders (some h)])
  | _ => some (viewport.Model.updateTabs lib model msg)

/-! ## `ui/statusbar/ui.go` -/

/-- Modelled from the spec: `statusbar.StatusMsg`, called by `main.go` and
not defined in the embedded status-bar source; it builds the status-value
message `statusUpdate`, "a message sent with a value to set as the status'
value". -/
def statusbar.StatusMsg (s : Status) : Msg := .statusUpdate s

/-- Modelled from the spec: `statusbar.CommandMsg`, called by `main.go` and
not defined in the embedded status-bar source; it builds the message
`commandInput` that mirrors the command buffer. -/
def statusbar.CommandMsg (text : GoString) : Msg := .commandInput text

/-- Modelled from the spec: `statusbar.Width`, called by `main.go` and not
defined in the embedded status-bar source; a width change, which the status
bar reads from the `Width` of a window-size message. -/
def statusbar.Width (w : Int) : Msg := .WindowSizeMsg w 0

/-- The constructor `NewStatusBar`: every field but the spinner has its zero
value (for the status, taken to be IDLE). -/
def statusbar.NewStatusBar (lib : Library) : statusbar.Model :=
  { spinner := lib.newSpinner
    spinning := false
    width := 0
    status := .IDLE
    commandEntry := []
    message := []
    mode := [] }

/-- The tail of `statusbar.Model.Update` (lines 56 to 69), reached by a
status-value message and by every message no case returns on. -/
def statusbar.Model.spin (lib : Library) (model : statusbar.Model) (msg : Msg) :
    statusbar.Model × Cmd :=
  if model.status = Status.PROCESSING then
    if !model.spinning then
      ({ model with spinning := true }, [Prim.spinnerTick model.spinner])
    else
      let r := lib.spinnerUpdate model.spinner msg
      ({ model with spinner := r.1 }, external r.2)
  else
    ({ model with spinning := false }, [])

/-- The method `statusbar.Model.Update`. -/
def statusbar.Model.Update (lib : Library) (model : statusbar.Model) (msg : Msg) :
    statusbar.Model × Cmd :=
  match msg with
  | .commandInput text => ({ model with commandEntry := text }, [])
  | .statusUpdate s => statusbar.Model.spin lib { model with status := s } msg
  | .WindowSizeMsg width _ => ({ model with width := width }, [])
  | .ShortMessage text => ({ model with message := text }, [])
  | .Mode text => ({ model with mode := text }, [])
  | _ => statusbar.Model.spin lib model msg

/-! ## `main.go` -/

/-- The function `getDefaultKeyBinds`. -/
def getDefaultKeyBinds : keymap :=
  { nextTab := key.NewBinding [str "shift+tab"]
    quit := key.NewBinding [str "ctrl+c"]
    toggleCommandMode := key.NewBinding [str "esc"] }

/-- The function `newAppModel`. -/
def newAppModel (lib : Library) : model :=
  { keybinds := getDefaultKeyBinds
    addressBar := addressbar.NewAddressBar lib
    viewport := viewport.NewViewport lib
    statusBar := statusbar.NewStatusBar lib
    activeRegion := 0
    commandMode := false
    command := [] }

/-- The method `model.resizeViewport`. -/
def model.resizeViewport (lib : Library) (m : model) (netHeight netWidth : Int) : model :=
  let statusBarHeight := lib.statusBarHeight m.statusBar
  let addressBarHeight := lib.addressBarHeight m.addressBar
  let v := m.viewport.SetHeight (netHeight - (statusBarHeight + addressBarHeight))
  { m with
    viewport := { v with Width := netWidth }
    statusBar := (m.statusBar.Update lib (statusbar.Width netWidth)).1 }

/-- The function `getFreeTextCommand`. -/
def getFreeTextCommand (cmd : GoString) : Cmd := [Prim.freeText cmd]

/-- The message the closure of `getFreeTextCommand(cmd)` returns. -/
def getFreeTextCommand.msg (cmd : GoString) : Msg := .FreeText cmd

/-- The method `model.submitRequest`: the command that will run the request
lifecycle for `address`. -/
def model.submitRequest (address : Address) : Cmd := [Prim.submitRequest address]

/-- The end of the command-mode key branch (lines 115 to 124): the buffer is
mirrored in the status bar behind the prefix, the mode flag being still set. -/
def model.mirrorCommand (lib : Library) (m : model) : model × Cmd :=
  let pre := if m.commandMode then str "> " else []
  ({ m with statusBar := (m.statusBar.Update lib (statusbar.CommandMsg (pre ++ m.command))).1 }, [])

/-- The end of `model.Update` (lines 176 to 198): the message goes to the
component at `activeRegion`, then to the status bar, and the commands are
batched. -/
def model.forward (lib : Library) (m : model) (msg : Msg) : Option (model × Cmd) :=
  let region : Option (model × Cmd) :=
    if m.activeRegion = 0 then
      let r := m.addressBar.Update lib msg
      some ({ m with addressBar := r.1 }, r.2)
    else if m.activeRegion = 1 then
      match m.viewport.Update lib msg with
      | none => none
      | some r => some ({ m with viewport := r.1 }, r.2)
    else some (m, [])
  match region with
  | none => none
  | some (m1, cmds) =>
    let r := m1.statusBar.Update lib msg
    some ({ m1 with statusBar := r.1 }, cmds ++ r.2)

/-- The method `model.Update`. `none` is a Go panic: `msg.Runes[0]` on a
rune key without runes, or a panic of the viewport. The call
`m.submitRequest(m.addressBar.GetAddress())` hands over the address that
`GetAddress` returns; its error is not inspected. -/
def model.Update (lib : Library) (m : model) (msg : Msg) : Option (model × Cmd) :=
  match msg with
  | .KeyMsg k =>
    if m.commandMode then
      if key.Matches k m.keybinds.toggleCommandMode then
        some ({ m with
          commandMode := false
          command := []
          statusBar := (m.statusBar.Update lib (statusbar.CommandMsg [])).1 }, [])
      else
        match k.Typ with
        | .KeyRunes =>
          match k.Runes with
          | [] => none
          | r :: _ => some (model.mirrorCommand lib { m with command := m.command ++ runeBytes r })
        | .KeyBackspace =>
          if m.command.length > 0 then
            some (model.mirrorCommand lib { m with command := m.command.take (m.command.length - 1) })
          else some (model.mirrorCommand lib m)
        | .KeyEnter =>
          some ({ m with command := [], commandMode := false }, getFreeTextCommand m.command)
        | _ => some (model.mirrorCommand lib m)
    else if key.Matches k m.keybinds.nextTab then
      some ({ m with activeRegion := Int.tmod (m.activeRegion + 1) 2 }, [])
    else if key.Matches k m.keybinds.toggleCommandMode then
      some ({ m with
        commandMode := true
        statusBar := (m.statusBar.Update lib (statusbar.CommandMsg (str ">"))).1 }, [])
    else if key.Matches k m.keybinds.quit then
      some (m, [Prim.Quit])
    else model.forward lib m msg
  | .WindowSizeMsg width height =>
    some (model.resizeViewport lib m height width, [])
  | .FreeText _ =>
    match m.viewport.Update lib msg with
    | none => none
    | some r => some ({ m with viewport := r.1 }, [])
  | .Trigger t =>
    match t with
    | .NewRequest =>
      let r := m.statusBar.Update lib (statusbar.StatusMsg Status.PROCESSING)
      some ({ m with
          statusBar := r.1
          viewport := m.viewport.SetEnabled false },
        r.2 ++ model.submitRequest (m.addressBar.GetAddress lib).1)
    | _ => model.forward lib m msg
  | .Response Body =>
    let v := (m.viewport.SetResponse Body).1
    some ({ m with
      viewport := v.SetEnabled true
      statusBar := (m.statusBar.Update lib (statusbar.StatusMsg Status.IDLE)).1 }, [])
  | _ => model.forward lib m msg

/-! ## The request lifecycle -/

/-- What `http.Get` hands back on success, reduced to what the lifecycle does
with it: the outcome of `io.ReadAll(res.Body)`, the body or a read error. -/
structure http.Response where
  Body : Except GoString GoString

/-- The transport collaborator `fetch(method, url)`: the response or a
connection error. -/
structure Transport where
  fetch : GoString → GoString → Except GoString http.Response

/-- One call of the transport: method and url. -/
structure Call where
  method : GoString
  url : GoString
deriving DecidableEq, Repr

/-- How a lifecycle ends: with a message, or with the `log.Panicln` that
halts the process. -/
inductive Outcome where
  | resolved (msg : Msg)
  | panicked
deriving DecidableEq, Repr

/-- Go `http.Get(url)`: one request with the method GET; the call is
recorded next to its result. -/
def http.Get (t : Transport) (url : GoString) : List Call × Except GoString http.Response :=
  ([{ method := str "GET", url := url }], t.fetch (str "GET") url)

/-- The body of the closure `model.submitRequest(address)` returns (lines 67
to 83): the transport calls it makes and how it ends. -/
def submitRequest.run (t : Transport) (address : Address) : List Call × Outcome :=
  let r := http.Get t address.Url
  match r.2 with
  | .error _ => (r.1, .panicked)
  | .ok res =>
    match res.Body with
    | .error _ => (r.1, .panicked)
    | .ok body => (r.1, .resolved (.Response body))

/-! ## Vocabulary of the statements -/

/-- Go `strings.Join(elems, sep)` for a separator of one byte `c`. -/
def strings.Join : List GoString → UInt8 → GoString
  | [], _ => []
  | [t], _ => t
  | t :: t2 :: ts, c => t ++ c :: strings.Join (t2 :: ts) c

/-- The reading of an address text as tokens: `text` is a run of spaces `l`,
the tokens `ts` joined by single spaces, and a run of spaces `r`; there is at
least one token, no token holds a space, and the first and the last token are
not empty (the joined part neither starts nor ends with a space). -/
def SpacedTokens (text l : GoString) (ts : List GoString) (r : GoString) : Prop :=
  (∀ b ∈ l, b = space) ∧ (∀ b ∈ r, b = space) ∧ (∀ t ∈ ts, space ∉ t) ∧
    ts.head? ≠ none ∧ ts.head? ≠ some [] ∧ ts.getLast? ≠ some [] ∧
    text = l ++ strings.Join ts space ++ r

instance (text l : GoString) (ts : List GoString) (r : GoString) :
    Decidable (SpacedTokens text l ts r) := by
  unfold SpacedTokens; infer_instance

/-- The bytes the specification calls whitespace: space, tab, newline. -/
def isWhitespace (b : UInt8) : Bool := b = 32 || b = 9 || b = 10

/-- The command table in the specification's words: four fixed tokens, each
with the index of the tab it jumps to. -/
def commandTable : List (GoString × Int) :=
  [(str ":q", 0), (str ":w", 1), (str ":e", 2), (str ":r", 3)]

/-- The key event whose `String()` is `name`, as a run of typed runes. -/
def typed (name : String) : Key := { Typ := .KeyRunes, Runes := name.data, Alt := false }

/-- The root after start-up with `text` typed in the address bar. -/
def appWithAddress (text : String) : model :=
  { newAppModel quietLibrary with addressBar := ⟨⟨text.data, 0⟩⟩ }

/-- A transport that answers every call with the body `body`. -/
def answering (body : GoString) : Transport :=
  { fetch := fun _ _ => .ok ⟨.ok body⟩ }

/-- The message the closure behind a primitive command returns, for the
closures whose result the embedded sources fix; `none` for the lifecycle (it
needs the transport), `tea.Quit` and commands of libraries. -/
def Prim.resolve : Prim → Option Msg
  | .SubmitNewRequest => some SubmitNewRequest.msg
  | .freeText cmd => some (getFreeTextCommand.msg cmd)
  | .requestHeaders (some h) => some (.requestHeaders h)
  | _ => none

/-- The root fed the messages of a list in order, as the event loop does;
`none` when one of the updates panics. -/
def model.run (lib : Library) (m : model) : List Msg → Option model
  | [] => some m
  | msg :: rest =>
    match m.Update lib msg with
    | none => none
    | some r => model.run lib r.1 rest

/-- A root state the program can be in: the one some sequence of messages
leads to from `newAppModel`. -/
def Reachable (lib : Library) (m : model) : Prop :=
  ∃ msgs, model.run lib (newAppModel lib) msgs = some m

/-- A key event that edits the command buffer: a rune key that carries at
least one rune, or backspace. -/
def Key.edits (k : Key) : Bool :=
  (decide (k.Typ = KeyType.KeyRunes) && !k.Runes.isEmpty) || decide (k.Typ = KeyType.KeyBackspace)

/-- Whether a case of the root's `Update` returns on `msg` in Normal mode:
a key of one of the three global bindings, a window size, a free text, the
NewRequest trigger, a response. Every other message falls to the forwarding
code at the end of `Update`. -/
def model.handles (m : model) (msg : Msg) : Bool :=
  match msg with
  | .KeyMsg k =>
    key.Matches k m.keybinds.nextTab || key.Matches k m.keybinds.toggleCommandMode ||
      key.Matches k m.keybinds.quit
  | .WindowSizeMsg _ _ => true
  | .FreeText _ => true
  | .Trigger .NewRequest => true
  | .Response _ => true
  | _ => false

/-- The root after start-up and one press of the toggle key: command mode
with an empty buffer. -/
def appInCommandMode : model :=
  { newAppModel quietLibrary with
    commandMode := true
    statusBar := ((newAppModel quietLibrary).statusBar.Update quietLibrary
      (statusbar.CommandMsg (str ">"))).1 }

/-! ## Lemmas on `Trim`, `Split` and `Join` -/

theorem trimLeftByte_all (c : UInt8) (l s : GoString) (hl : ∀ b ∈ l, b = c) :
    strings.trimLeftByte (l ++ s) c = strings.trimLeftByte s c := by
  induction l with
  | nil => rfl
  | cons b l ih =>
    have hb : b = c := hl b (List.mem_cons_self _ _)
    have hrest : ∀ x ∈ l, x = c := fun x hx => hl x (List.mem_cons_of_mem _ hx)
    simp [strings.trimLeftByte, hb, ih hrest]

theorem trimLeftByte_fixed (c : UInt8) (s : GoString) (h : ∀ b, s.head? = some b → b ≠ c) :
    strings.trimLeftByte s c = s := by
  cases s with
  | nil => rfl
  | cons b s =>
    have hb : b ≠ c := h b rfl
    simp [strings.trimLeftByte, hb]

theorem trimLeftByte_head (c : UInt8) (s : GoString) :
    ∀ b, (strings.trimLeftByte s c).head? = some b → b ≠ c := by
  induction s with
  | nil => intro b h; simp [strings.trimLeftByte] at h
  | cons x s ih =>
    intro b h
    by_cases hx : x = c
    · simp [strings.trimLeftByte, hx] at h
      exact ih b h
    · simp [strings.trimLeftByte, hx] at h
      exact h ▸ hx

theorem trimLeftByte_eq_nil (c : UInt8) (s : GoString) :
    strings.trimLeftByte s c = [] ↔ ∀ b ∈ s, b = c := by
  induction s with
  | nil => simp [strings.trimLeftByte]
  | cons x s ih =>
    by_cases hx : x = c
    · simp [strings.trimLeftByte, hx, ih]
    · simp [strings.trimLeftByte, hx]

theorem Trim_eq_nil (c : UInt8) (s : GoString) :
    strings.Trim s c = [] ↔ ∀ b ∈ s, b = c := by
  unfold strings.Trim strings.trimRightByte
  constructor
  · intro h
    have h1 := (trimLeftByte_eq_nil c _).1 h
    have h2 : strings.trimLeftByte s.reverse c = [] := by
      cases hr : strings.trimLeftByte s.reverse c with
      | nil => rfl
      | cons x r =>
        exfalso
        have hx : x ≠ c := trimLeftByte_head c s.reverse x (by simp [hr])
        rw [hr] at h1
        exact hx (h1 x (by simp))
    have h3 := (trimLeftByte_eq_nil c _).1 h2
    intro b hb
    exact h3 b (by simpa using hb)
  · intro h
    have h2 : strings.trimLeftByte s.reverse c = [] :=
      (trimLeftByte_eq_nil c _).2 (fun b hb => h b (by simpa using hb))
    simp [h2, strings.trimLeftByte]

theorem Trim_core (c : UInt8) (l core r : GoString)
    (hl : ∀ b ∈ l, b = c) (hr : ∀ b ∈ r, b = c)
    (hhead : ∀ b, core.head? = some b → b ≠ c)
    (hlast : ∀ b, core.getLast? = some b → b ≠ c) :
    strings.Trim (l ++ core ++ r) c = core := by
  unfold strings.Trim strings.trimRightByte
  have h1 : (l ++ core ++ r).reverse = r.reverse ++ (core.reverse ++ l.reverse) := by simp
  rw [h1, trimLeftByte_all c r.reverse _ (fun b hb => hr b (by simpa using hb))]
  by_cases hc : core = []
  · subst hc
    have h2 : strings.trimLeftByte ([].reverse ++ l.reverse) c = [] :=
      (trimLeftByte_eq_nil c _).2 (fun b hb => hl b (by simpa using hb))
    rw [h2]; rfl
  · have h2 : strings.trimLeftByte (core.reverse ++ l.reverse) c = core.reverse ++ l.reverse := by
      apply trimLeftByte_fixed
      intro b hb
      apply hlast b
      cases hrev : core.reverse with
      | nil => simp at hrev; exact absurd hrev hc
      | cons x xs =>
        rw [hrev] at hb
        simp at hb
        have : core = (x :: xs).reverse := by rw [← hrev]; simp
        rw [this, ← hb]; simp
    rw [h2]
    simp only [List.reverse_append, List.reverse_reverse]
    rw [trimLeftByte_all c l core hl]
    exact trimLeftByte_fixed c core hhead

theorem Split_free (c : UInt8) (t : GoString) (ht : c ∉ t) : strings.Split t c = [t] := by
  induction t with
  | nil => rfl
  | cons b t ih =>
    have hb : b ≠ c := fun h => ht (h ▸ List.mem_cons_self _ _)
    have ht2 : c ∉ t := fun h => ht (List.mem_cons_of_mem _ h)
    simp [strings.Split, hb, ih ht2]

theorem Split_append_sep (c : UInt8) (t s : GoString) (ht : c ∉ t) :
    strings.Split (t ++ c :: s) c = t :: strings.Split s c := by
  induction t with
  | nil => simp [strings.Split]
  | cons b t ih =>
    have hb : b ≠ c := fun h => ht (h ▸ List.mem_cons_self _ _)
    have ht2 : c ∉ t := fun h => ht (List.mem_cons_of_mem _ h)
    simp [strings.Split, hb, ih ht2]

theorem Split_Join (c : UInt8) (ts : List GoString) (hne : ts ≠ [])
    (hfree : ∀ t ∈ ts, c ∉ t) : strings.Split (strings.Join ts c) c = ts := by
  induction ts with
  | nil => exact absurd rfl hne
  | cons t ts ih =>
    cases ts with
    | nil => simpa [strings.Join] using Split_free c t (hfree t (List.mem_cons_self _ _))
    | cons t2 ts =>
      have h1 := Split_append_sep c t (strings.Join (t2 :: ts) c) (hfree t (List.mem_cons_self _ _))
      have h2 := ih (by simp) (fun x hx => hfree x (List.mem_cons_of_mem _ hx))
      simp only [strings.Join]
      rw [h1, h2]

theorem Join_head (c : UInt8) (ts : List GoString) (hfree : ∀ t ∈ ts, c ∉ t)
    (hfirst : ts.head? ≠ some []) :
    ∀ b, (strings.Join ts c).head? = some b → b ≠ c := by
  intro b hb
  cases ts with
  | nil => simp [strings.Join] at hb
  | cons t rest =>
    cases t with
    | nil => simp at hfirst
    | cons x t =>
      have hx : x ≠ c := fun h => hfree (x :: t) (List.mem_cons_self _ _) (h ▸ List.mem_cons_self _ _)
      cases rest with
      | nil => simp [strings.Join] at hb; exact hb ▸ hx
      | cons t2 rest => simp [strings.Join] at hb; exact hb ▸ hx

theorem Join_last (c : UInt8) (ts : List GoString) (hfree : ∀ t ∈ ts, c ∉ t)
    (hne : ts ≠ []) (hlast : ts.getLast? ≠ some []) :
    strings.Join ts c ≠ [] ∧ ∀ b, (strings.Join ts c).getLast? = some b → b ≠ c := by
  induction ts with
  | nil => exact absurd rfl hne
  | cons t rest ih =>
    cases rest with
    | nil =>
      have ht : t ≠ [] := fun h => hlast (by simp [h])
      refine ⟨by simpa [strings.Join] using ht, ?_⟩
      intro b hb
      simp only [strings.Join] at hb
      have hmem : b ∈ t := List.mem_of_getLast?_eq_some hb
      exact fun h => hfree t (List.mem_cons_self _ _) (h ▸ hmem)
    | cons t2 rest =>
      have hrec := ih (fun x hx => hfree x (List.mem_cons_of_mem _ hx)) (by simp)
        (by simpa [List.getLast?_cons_cons] using hlast)
      refine ⟨by simp [strings.Join], ?_⟩
      intro b hb
      simp only [strings.Join] at hb
      rw [List.getLast?_append_of_ne_nil _ (by simp)] at hb
      cases hJ : strings.Join (t2 :: rest) c with
      | nil => exact absurd hJ hrec.1
      | cons y ys =>
        rw [hJ, List.getLast?_cons_cons] at hb
        exact hrec.2 b (by rw [hJ]; exact hb)

theorem Split_ne_nil (c : UInt8) (s : GoString) : strings.Split s c ≠ [] := by
  cases s with
  | nil => simp [strings.Split]
  | cons b s =>
    by_cases hb : b = c
    · simp [strings.Split, hb]
    · cases h : strings.Split s c <;> simp [strings.Split, hb, h]

theorem Join_Split (c : UInt8) (s : GoString) : strings.Join (strings.Split s c) c = s := by
  induction s with
  | nil => rfl
  | cons b s ih =>
    cases h : strings.Split s c with
    | nil => exact absurd h (Split_ne_nil c s)
    | cons t ts =>
      rw [h] at ih
      by_cases hb : b = c
      · simp [strings.Split, hb, h, strings.Join, ih]
      · cases ts with
        | nil => simp [strings.Split, hb, h, strings.Join] at ih ⊢; exact ih
        | cons t2 ts => simp [strings.Split, hb, h, strings.Join] at ih ⊢; exact ih

theorem Split_free_tokens (c : UInt8) (s : GoString) : ∀ t ∈ strings.Split s c, c ∉ t := by
  induction s with
  | nil => intro t ht; simp [strings.Split] at ht; simp [ht]
  | cons b s ih =>
    intro t ht
    by_cases hb : b = c
    · simp [strings.Split, hb] at ht
      rcases ht with ht | ht
      · simp [ht]
      · exact ih t ht
    · cases h : strings.Split s c with
      | nil => exact absurd h (Split_ne_nil c s)
      | cons t1 ts =>
        simp [strings.Split, hb, h] at ht
        rw [h] at ih
        rcases ht with ht | ht
        · subst ht
          intro hmem
          simp at hmem
          rcases hmem with hmem | hmem
          · exact hb hmem.symm
          · exact ih t1 (List.mem_cons_self _ _) hmem
        · exact ih t (List.mem_cons_of_mem _ ht)

theorem Split_head (c : UInt8) (s : GoString) (hne : s ≠ [])
    (hhead : ∀ b, s.head? = some b → b ≠ c) : (strings.Split s c).head? ≠ some [] := by
  cases s with
  | nil => exact absurd rfl hne
  | cons b s =>
    have hb : b ≠ c := hhead b rfl
    cases h : strings.Split s c <;> simp [strings.Split, hb, h]

theorem Split_last (c : UInt8) (s : GoString) (hne : s ≠ [])
    (hlast : ∀ b, s.getLast? = some b → b ≠ c) : (strings.Split s c).getLast? ≠ some [] := by
  induction s with
  | nil => exact absurd rfl hne
  | cons b s ih =>
    cases s with
    | nil =>
      have hb : b ≠ c := hlast b rfl
      simp [strings.Split, hb]
    | cons b2 s =>
      have hrec := ih (by simp) (fun x hx => hlast x (by simpa [List.getLast?_cons_cons] using hx))
      cases h : strings.Split (b2 :: s) c with
      | nil => exact absurd h (Split_ne_nil c _)
      | cons t ts =>
        rw [h] at hrec
        by_cases hb : b = c
        · have : strings.Split (b :: b2 :: s) c = [] :: t :: ts := by
            rw [strings.Split]; simp [hb, h]
          rw [this, List.getLast?_cons_cons]; exact hrec
        · have : strings.Split (b :: b2 :: s) c = (b :: t) :: ts := by
            rw [strings.Split]; simp [hb, h]
          rw [this]
          cases ts with
          | nil => simp
          | cons t2 ts =>
            rw [List.getLast?_cons_cons]
            rw [List.getLast?_cons_cons] at hrec
            exact hrec

theorem trimLeftByte_split (c : UInt8) (s : GoString) :
    ∃ l, (∀ b ∈ l, b = c) ∧ s = l ++ strings.trimLeftByte s c := by
  induction s with
  | nil => exact ⟨[], by simp, rfl⟩
  | cons b s ih =>
    by_cases hb : b = c
    · obtain ⟨l, hl, hs⟩ := ih
      refine ⟨b :: l, ?_, ?_⟩
      · intro x hx
        simp at hx
        rcases hx with hx | hx
        · exact hx ▸ hb
        · exact hl x hx
      · simp [strings.trimLeftByte, hb]
        simpa [hb] using hs
    · exact ⟨[], by simp, by simp [strings.trimLeftByte, hb]⟩

theorem Trim_split (c : UInt8) (s : GoString) :
    ∃ l r, (∀ b ∈ l, b = c) ∧ (∀ b ∈ r, b = c) ∧ s = l ++ strings.Trim s c ++ r ∧
      (∀ b, (strings.Trim s c).head? = some b → b ≠ c) ∧
      (∀ b, (strings.Trim s c).getLast? = some b → b ≠ c) := by
  obtain ⟨r', hr', hs'⟩ := trimLeftByte_split c s.reverse
  obtain ⟨l, hl, hx⟩ := trimLeftByte_split c (strings.trimRightByte s c)
  have hs : s = strings.trimRightByte s c ++ r'.reverse := by
    have := congrArg List.reverse hs'
    simpa [strings.trimRightByte] using this
  refine ⟨l, r'.reverse, hl, fun b hb => hr' b (by simpa using hb), ?_, ?_, ?_⟩
  · unfold strings.Trim
    rw [← hx]; exact hs
  · exact trimLeftByte_head c _
  · intro b hb
    unfold strings.Trim at hb
    have hne : strings.trimLeftByte (strings.trimRightByte s c) c ≠ [] := by
      intro h; rw [h] at hb; simp at hb
    have h1 : (strings.trimRightByte s c).getLast? = some b := by
      rw [hx, List.getLast?_append_of_ne_nil _ hne]; exact hb
    unfold strings.trimRightByte at h1
    rw [List.getLast?_reverse] at h1
    exact trimLeftByte_head c _ b h1

/-! ## The address bar: C1, C2 -/

/-- C1. For every address-bar text that holds a byte other than a space (its
form after trimming surrounding spaces is non-empty), the text is a run of
spaces, then tokens joined by single spaces, then a run of spaces, and for
every such reading `GetAddress` succeeds (nil error) with: Method = "GET" and
Url = the token when there is a single token; Method = the first token
upper-cased and Url = the last token when there are more, the tokens in
between being dropped. -/
theorem GetAddress_tokens (lib : Library) (a : addressbar.Model)
    (h : ∃ b ∈ a.input.Value, b ≠ space) :
    (∃ l ts r, SpacedTokens a.input.Value l ts r) ∧
    ∀ l ts r, SpacedTokens a.input.Value l ts r →
      a.GetAddress lib =
        ({ Method := if ts.length = 1 then str "GET"
                     else strings.ToUpper lib.unicodeUpper (ts.headD [])
           Url := ts.getLastD [] }, none) := by
  constructor
  · obtain ⟨l, r, hl, hr, hs, hhead, hlast⟩ := Trim_split space a.input.Value
    have hne : strings.Trim a.input.Value space ≠ [] := by
      intro h0
      obtain ⟨b, hb, hbs⟩ := h
      exact hbs ((Trim_eq_nil space _).1 h0 b hb)
    refine ⟨l, strings.Split (strings.Trim a.input.Value space) space, r, hl, hr,
      Split_free_tokens space _, ?_, Split_head space _ hne hhead,
      Split_last space _ hne hlast, ?_⟩
    · cases hsp : strings.Split (strings.Trim a.input.Value space) space with
      | nil => exact absurd hsp (Split_ne_nil space _)
      | cons t ts => simp
    · rw [Join_Split]; exact hs
  · rintro l ts r ⟨hl, hr, hfree, hsome, hfirst, hlast, htext⟩
    have hts : ts ≠ [] := by
      intro h0; rw [h0] at hsome; exact hsome rfl
    have hJ := Join_last space ts hfree hts hlast
    have htrim : strings.Trim a.input.Value space = strings.Join ts space := by
      rw [htext]
      exact Trim_core space l _ r hl hr (Join_head space ts hfree hfirst) hJ.2
    have hlen : (strings.Join ts space).length ≠ 0 := by
      intro h0; exact hJ.1 (List.length_eq_zero.1 h0)
    unfold addressbar.Model.GetAddress
    simp only [htrim, hlen, if_false, Split_Join space ts hts hfree]
    cases ts with
    | nil => exact absurd rfl hts
    | cons t rest =>
      cases rest with
      | nil =>
        have hget : strings.ToUpper lib.unicodeUpper (str "GET") = str "GET" := by
          unfold strings.ToUpper; rfl
        simp [hget]
      | cons t2 rest => simp

/-- C1, on the three address texts the specification names, among them one
with a dropped middle token. -/
theorem GetAddress_tokens_witness :
    addressbar.Model.GetAddress quietLibrary ⟨⟨"  /shops  ".data, 0⟩⟩
        = (⟨str "GET", str "/shops"⟩, none) ∧
    addressbar.Model.GetAddress quietLibrary ⟨⟨"post /shops".data, 0⟩⟩
        = (⟨str "POST", str "/shops"⟩, none) ∧
    addressbar.Model.GetAddress quietLibrary ⟨⟨"POST extra /shops".data, 0⟩⟩
        = (⟨str "POST", str "/shops"⟩, none) :=
  ⟨(GetAddress_tokens quietLibrary ⟨⟨"  /shops  ".data, 0⟩⟩ ⟨47, by decide, by decide⟩).2
      (str "  ") [str "/shops"] (str "  ") (by decide),
   (GetAddress_tokens quietLibrary ⟨⟨"post /shops".data, 0⟩⟩ ⟨47, by decide, by decide⟩).2
      [] [str "post", str "/shops"] [] (by decide),
   (GetAddress_tokens quietLibrary ⟨⟨"POST extra /shops".data, 0⟩⟩ ⟨47, by decide, by decide⟩).2
      [] [str "POST", str "extra", str "/shops"] [] (by decide)⟩

/-- C2, refuted as stated: the text of a single tab consists only of
whitespace, and `GetAddress` returns a nil error on it (with method GET and
the tab as url). -/
theorem GetAddress_tab_no_error :
    (∀ b ∈ textinput.Model.Value ⟨['\t'], 0⟩, isWhitespace b = true) ∧
    addressbar.Model.GetAddress quietLibrary ⟨⟨['\t'], 0⟩⟩ = (⟨str "GET", [9]⟩, none) := by
  decide

/-- C2, amended. `GetAddress` returns an error exactly when the text is empty
or consists only of space bytes (U+0020), the only byte it trims; on every
other text, one of tabs or newlines included, the error is nil. -/
theorem GetAddress_error_iff (lib : Library) (a : addressbar.Model) :
    ((a.GetAddress lib).2 ≠ none ↔ ∀ b ∈ a.input.Value, b = space) ∧
    ((a.GetAddress lib).2 = none ↔ ∃ b ∈ a.input.Value, b ≠ space) := by
  have key : (a.GetAddress lib).2 ≠ none ↔ ∀ b ∈ a.input.Value, b = space := by
    rw [← Trim_eq_nil]
    unfold addressbar.Model.GetAddress
    by_cases h0 : strings.Trim a.input.Value space = []
    · simp [h0]
    · have : (strings.Trim a.input.Value space).length ≠ 0 := fun h => h0 (List.length_eq_zero.1 h)
      simp [h0, this]
  refine ⟨key, ?_⟩
  constructor
  · intro hnone
    by_contra hex
    push_neg at hex
    exact (key.2 hex) hnone
  · rintro ⟨b, hb, hbs⟩
    by_contra hsome
    exact hbs (key.1 hsome b hb)


/-! ## The request sequence at the root: C3 to C8 -/

theorem lifecycles_external (tags : List Nat) : Cmd.lifecycles (external tags) = [] := by
  induction tags with
  | nil => rfl
  | cons t tags ih =>
    simp [Cmd.lifecycles, external]

theorem statusUpdate_status (lib : Library) (s : statusbar.Model) (v : Status) :
    (s.Update lib (statusbar.StatusMsg v)).1.status = v := by
  simp only [statusbar.StatusMsg, statusbar.Model.Update, statusbar.Model.spin]
  split_ifs <;> rfl

theorem statusUpdate_lifecycles (lib : Library) (s : statusbar.Model) (v : Status) :
    Cmd.lifecycles (s.Update lib (statusbar.StatusMsg v)).2 = [] := by
  simp only [statusbar.StatusMsg, statusbar.Model.Update, statusbar.Model.spin]
  split_ifs
  · rfl
  · exact lifecycles_external _
  · rfl

theorem trigger_step (lib : Library) (m : model) :
    m.Update lib (.Trigger .NewRequest) =
      some ({ m with
          statusBar := (m.statusBar.Update lib (statusbar.StatusMsg Status.PROCESSING)).1
          viewport := m.viewport.SetEnabled false },
        (m.statusBar.Update lib (statusbar.StatusMsg Status.PROCESSING)).2 ++
          model.submitRequest (m.addressBar.GetAddress lib).1) := rfl

theorem response_step (lib : Library) (m : model) (body : GoString) :
    m.Update lib (.Response body) =
      some ({ m with
          viewport := m.viewport.SetEnabled true
          statusBar := (m.statusBar.Update lib (statusbar.StatusMsg Status.IDLE)).1 }, []) := rfl

theorem lifecycles_trigger (lib : Library) (m : model) :
    Cmd.lifecycles ((m.statusBar.Update lib (statusbar.StatusMsg Status.PROCESSING)).2 ++
      model.submitRequest (m.addressBar.GetAddress lib).1) = [(m.addressBar.GetAddress lib).1] := by
  have h := statusUpdate_lifecycles lib m.statusBar Status.PROCESSING
  unfold Cmd.lifecycles at h ⊢
  rw [List.filterMap_append, h]
  rfl

/-- C3. For every root state, whatever its activeRegion and command-mode
flag, handling the request-trigger message NewRequest does not panic and
yields a state whose status bar holds PROCESSING and whose viewport is
disabled, with a command that schedules exactly one request lifecycle, the
one for the address `GetAddress` returns on the current address bar;
activeRegion, commandMode, the command buffer and the address bar are
unchanged. -/
theorem Update_NewRequest (lib : Library) (m : model) :
    ∃ m2 cmd, m.Update lib (.Trigger .NewRequest) = some (m2, cmd) ∧
      m2.statusBar.status = Status.PROCESSING ∧
      m2.viewport.enabled = false ∧
      cmd.lifecycles = [(m.addressBar.GetAddress lib).1] ∧
      m2.activeRegion = m.activeRegion ∧
      m2.commandMode = m.commandMode ∧
      m2.command = m.command ∧
      m2.addressBar = m.addressBar :=
  ⟨_, _, trigger_step lib m, statusUpdate_status lib m.statusBar _, rfl,
    lifecycles_trigger lib m, rfl, rfl, rfl, rfl⟩

/-- C4. For every root state and every response body, handling the resolved
Response message does not panic, returns no command, and yields a state whose
viewport is enabled and whose status bar holds IDLE; so a trigger followed by
a response ends with the viewport enabled and the status IDLE. -/
theorem Update_Response (lib : Library) (m : model) (body : GoString) :
    (∃ m2, m.Update lib (.Response body) = some (m2, []) ∧
      m2.viewport.enabled = true ∧ m2.statusBar.status = Status.IDLE) ∧
    (∃ m1 c1 m2, m.Update lib (.Trigger .NewRequest) = some (m1, c1) ∧
      m1.Update lib (.Response body) = some (m2, []) ∧
      m2.viewport.enabled = true ∧ m2.statusBar.status = Status.IDLE) :=
  ⟨⟨_, response_step lib m body, rfl, statusUpdate_status lib m.statusBar _⟩,
   ⟨_, _, _, trigger_step lib m, response_step lib _ body, rfl,
    statusUpdate_status lib _ _⟩⟩

/-- C5, the code at the failing input. After start-up, with `GET /users` in
the address bar, a trigger and then the Response carrying the body `{"id":1}`:
the viewport's `responseBody` is still empty and its Response sub-view is the
one it started with, so the body is stored nowhere in the viewport. -/
theorem Response_body_not_stored :
    ∃ m1 c1 m2 c2,
      (appWithAddress "GET /users").Update quietLibrary (.Trigger .NewRequest) = some (m1, c1) ∧
      m1.Update quietLibrary (.Response (str "\x7b\"id\":1\x7d")) = some (m2, c2) ∧
      m2.viewport.responseBody = [] ∧
      m2.viewport.responseBody ≠ str "\x7b\"id\":1\x7d" ∧
      m2.viewport.responseModel = (appWithAddress "GET /users").viewport.responseModel :=
  ⟨_, _, _, _, rfl, rfl, rfl, by decide, rfl⟩

/-- C6, refuted as stated. After start-up with `GET /users` in the address
bar, a first trigger leaves the viewport disabled (a request is pending), and
a second trigger in that state schedules one more lifecycle. -/
theorem second_trigger_schedules :
    ∃ m1 c1 m2 c2,
      (appWithAddress "GET /users").Update quietLibrary (.Trigger .NewRequest) = some (m1, c1) ∧
      m1.viewport.enabled = false ∧
      m1.Update quietLibrary (.Trigger .NewRequest) = some (m2, c2) ∧
      c2.lifecycles = [⟨str "GET", str "/users"⟩] :=
  ⟨_, _, _, _, rfl, rfl, rfl, by decide⟩

/-- C6, amended. The root does not bound the outstanding lifecycles: for every
root state whose viewport is disabled, handling a request-trigger message
still schedules exactly one new request lifecycle, for the address bar's
current address, and leaves the viewport disabled. -/
theorem trigger_while_disabled (lib : Library) (m : model)
    (h : m.viewport.enabled = false) :
    ∃ m2 cmd, m.Update lib (.Trigger .NewRequest) = some (m2, cmd) ∧
      cmd.lifecycles = [(m.addressBar.GetAddress lib).1] ∧
      m2.viewport = m.viewport := by
  refine ⟨_, _, trigger_step lib m, lifecycles_trigger lib m, ?_⟩
  show m.viewport.SetEnabled false = m.viewport
  unfold viewport.Model.SetEnabled
  rw [← h]

/-- C6, amended, at the root that a first trigger left with a disabled
viewport. -/
theorem trigger_while_disabled_witness :
    (appWithAddress "GET /users").viewport.enabled = false ∧
    ∃ m2 cmd, (appWithAddress "GET /users").Update quietLibrary (.Trigger .NewRequest)
        = some (m2, cmd) ∧
      cmd.lifecycles = [((appWithAddress "GET /users").addressBar.GetAddress quietLibrary).1] ∧
      m2.viewport = (appWithAddress "GET /users").viewport :=
  ⟨rfl, trigger_while_disabled quietLibrary (appWithAddress "GET /users") rfl⟩

theorem submitRequest_calls (t : Transport) (address : Address) :
    (submitRequest.run t address).1 = [⟨str "GET", address.Url⟩] := by
  unfold submitRequest.run http.Get
  cases h1 : t.fetch (str "GET") address.Url with
  | error e => rfl
  | ok res =>
    cases h2 : res.Body with
    | error e => simp [h2]
    | ok body => simp [h2]

/-- C7, the code at the failing input. For the address (POST, /shops) the
lifecycle makes exactly one transport call, and that call is sent with the
method GET, not POST; with a transport that answers, it resolves to the
Response message that carries the fetched body. -/
theorem submitRequest_sends_GET (body : GoString) :
    submitRequest.run (answering body) ⟨str "POST", str "/shops"⟩ =
      ([⟨str "GET", str "/shops"⟩], .resolved (.Response body)) ∧
    (⟨str "GET", str "/shops"⟩ : Call) ≠ ⟨str "POST", str "/shops"⟩ :=
  ⟨rfl, by decide⟩

/-- C8, refuted as stated. With an empty address text `GetAddress` fails, yet
enter in the address bar emits the request-trigger command, and the root, on
that trigger, sets the status to PROCESSING and schedules a lifecycle (for the
zero address). -/
theorem empty_address_submits :
    ((appWithAddress "").addressBar.GetAddress quietLibrary).2 = some [] ∧
    (appWithAddress "").addressBar.Update quietLibrary (.KeyMsg ⟨.KeyEnter, [], false⟩)
      = ((appWithAddress "").addressBar, [Prim.SubmitNewRequest]) ∧
    SubmitNewRequest.msg = .Trigger .NewRequest ∧
    ∃ m2 cmd, (appWithAddress "").Update quietLibrary (.Trigger .NewRequest) = some (m2, cmd) ∧
      cmd.lifecycles = [⟨[], []⟩] ∧
      m2.statusBar.status = Status.PROCESSING ∧
      (appWithAddress "").statusBar.status = Status.IDLE :=
  ⟨rfl, rfl, rfl, _, _, rfl, by decide, rfl, rfl⟩

/-- C8, amended. When the address text is empty or only spaces, `GetAddress`
fails with an error and the zero address; pressing enter in the address bar
does not parse: it leaves the address bar unchanged and emits exactly the
request-trigger command, as for any other text. -/
theorem enter_emits_trigger (lib : Library) (a : addressbar.Model) (k : Key)
    (hk : k.String = str "enter") (hempty : ∀ b ∈ a.input.Value, b = space) :
    a.GetAddress lib = (⟨[], []⟩, some []) ∧
    a.Update lib (.KeyMsg k) = (a, [Prim.SubmitNewRequest]) := by
  constructor
  · have h0 : strings.Trim a.input.Value space = [] := (Trim_eq_nil space _).2 hempty
    simp [addressbar.Model.GetAddress, h0]
  · simp [addressbar.Model.Update, hk]

/-- C8, amended, at the empty address text and the enter key. -/
theorem enter_emits_trigger_witness :
    addressbar.Model.GetAddress quietLibrary ⟨⟨[], 0⟩⟩ = (⟨[], []⟩, some []) ∧
    addressbar.Model.Update quietLibrary ⟨⟨[], 0⟩⟩ (.KeyMsg ⟨.KeyEnter, [], false⟩)
      = (⟨⟨[], 0⟩⟩, [Prim.SubmitNewRequest]) :=
  enter_emits_trigger quietLibrary ⟨⟨[], 0⟩⟩ ⟨.KeyEnter, [], false⟩ (by decide) (by decide)

/-! ## The viewport: C9, C10 -/

theorem Update_nextTab (lib : Library) (v : viewport.Model) (k : Key)
    (hk : key.Matches k v.keybinds.nextTab = true) (hn : v.tabs.length ≠ 0) :
    v.Update lib (.KeyMsg k) =
      some ({ v with activeTab := Int.tmod (v.activeTab + 1) (v.tabs.length : Int) }, []) := by
  simp [viewport.Model.Update, hk, hn]

theorem Update_previousTab (lib : Library) (v : viewport.Model) (k : Key)
    (hn : key.Matches k v.keybinds.nextTab = false)
    (hk : key.Matches k v.keybinds.previousTab = true) :
    v.Update lib (.KeyMsg k) =
      some (viewport.Model.updateTabs lib
        { v with activeTab := if v.activeTab = 0 then 2 else v.activeTab - 1 } (.KeyMsg k)) := by
  simp [viewport.Model.Update, hk, hn]

/-- C9, the code at the failing input. In the viewport `NewViewport` builds
(4 tabs), the backward key on tab 0 yields tab 2, not 3; and from tab 3 the
forward key yields tab 0, from where the backward key yields tab 2, so forward
followed by backward does not return to 3. -/
theorem previousTab_from_zero (lib : Library) :
    (((viewport.NewViewport lib).Update lib (.KeyMsg (typed "shift+b"))).map
      (fun r => r.1.activeTab)) = some 2 ∧
    viewport.Model.Update lib { viewport.NewViewport lib with activeTab := 3 }
        (.KeyMsg (typed "shift+f")) = some ({ viewport.NewViewport lib with activeTab := 0 }, []) ∧
    ((viewport.Model.Update lib { viewport.NewViewport lib with activeTab := 0 }
        (.KeyMsg (typed "shift+b"))).map (fun r => r.1.activeTab)) = some 2 := by
  refine ⟨rfl, ?_, rfl⟩
  have h4 : ({ viewport.NewViewport lib with activeTab := 3 } : viewport.Model).tabs.length = 4 :=
    rfl
  rw [Update_nextTab lib { viewport.NewViewport lib with activeTab := 3 } (typed "shift+f") rfl
    (by rw [h4]; decide), h4]
  rfl

/-- C10. The viewport handles a free-text command by the fixed four-entry
table: `:q` sets the active tab to 0, `:w` to 1, `:e` to 2, `:r` to 3, nothing
else changing; for every other command text the viewport is returned
unchanged; in both cases no command is emitted and nothing panics. -/
theorem Update_FreeText (lib : Library) (v : viewport.Model) (text : GoString) :
    v.Update lib (.FreeText text) =
      some (match commandTable.lookup text with
            | some tab => { v with activeTab := tab }
            | none => v, []) := by
  unfold viewport.Model.Update
  by_cases hq : text = str ":q"
  · subst hq; rfl
  by_cases hw : text = str ":w"
  · subst hw; rfl
  by_cases he : text = str ":e"
  · subst he; rfl
  by_cases hr : text = str ":r"
  · subst hr; rfl
  have hl : commandTable.lookup text = none := by
    simp only [commandTable, List.lookup]
    have h1 : (text == str ":q") = false := by simpa using hq
    have h2 : (text == str ":w") = false := by simpa using hw
    have h3 : (text == str ":e") = false := by simpa using he
    have h4 : (text == str ":r") = false := by simpa using hr
    simp [h1, h2, h3, h4]
  simp [hq, hw, he, hr, hl]

/-! ## Command mode at the root: C11 to C15 -/

theorem run_append (lib : Library) (m : model) (xs ys : List Msg) :
    model.run lib m (xs ++ ys) = (model.run lib m xs).bind (fun m1 => model.run lib m1 ys) := by
  induction xs generalizing m with
  | nil => rfl
  | cons x xs ih =>
    simp only [List.cons_append, model.run]
    cases h : m.Update lib x with
    | none => rfl
    | some r => simp [ih]

theorem toggle_on_step (lib : Library) (m : model) (k : Key) (hm : m.commandMode = false)
    (hn : key.Matches k m.keybinds.nextTab = false)
    (hk : key.Matches k m.keybinds.toggleCommandMode = true) :
    m.Update lib (.KeyMsg k) =
      some ({ m with
        commandMode := true
        statusBar := (m.statusBar.Update lib (statusbar.CommandMsg (str ">"))).1 }, []) := by
  simp [model.Update, hm, hn, hk]

theorem toggle_off_step (lib : Library) (m : model) (k : Key) (hm : m.commandMode = true)
    (hk : key.Matches k m.keybinds.toggleCommandMode = true) :
    m.Update lib (.KeyMsg k) =
      some ({ m with
        commandMode := false
        command := []
        statusBar := (m.statusBar.Update lib (statusbar.CommandMsg [])).1 }, []) := by
  simp [model.Update, hm, hk]

theorem mirror_frame (lib : Library) (m : model) :
    (model.mirrorCommand lib m).2 = [] ∧
    (model.mirrorCommand lib m).1.commandMode = m.commandMode ∧
    (model.mirrorCommand lib m).1.command = m.command ∧
    (model.mirrorCommand lib m).1.keybinds = m.keybinds ∧
    (model.mirrorCommand lib m).1.activeRegion = m.activeRegion ∧
    (model.mirrorCommand lib m).1.addressBar = m.addressBar ∧
    (model.mirrorCommand lib m).1.viewport = m.viewport :=
  ⟨rfl, rfl, rfl, rfl, rfl, rfl, rfl⟩

theorem command_key_step (lib : Library) (m : model) (k : Key) (hm : m.commandMode = true)
    (hk : k.Typ = KeyType.KeyRunes → k.Runes ≠ []) :
    ∃ m2 cmd, m.Update lib (.KeyMsg k) = some (m2, cmd) ∧
      m2.keybinds = m.keybinds ∧ m2.activeRegion = m.activeRegion ∧
      m2.addressBar = m.addressBar ∧ m2.viewport = m.viewport ∧
      (cmd = [] ∨ cmd = getFreeTextCommand m.command) ∧
      (m2.commandMode = true ∨ m2.command = []) ∧
      (k.edits = true → key.Matches k m.keybinds.toggleCommandMode = false →
        m2.commandMode = true ∧ cmd = []) := by
  unfold model.Update
  simp only [hm, if_true]
  by_cases ht : key.Matches k m.keybinds.toggleCommandMode = true
  · simp only [ht, if_true]
    exact ⟨_, _, rfl, rfl, rfl, rfl, rfl, Or.inl rfl, Or.inr rfl,
      fun _ hf => absurd hf (by decide)⟩
  · simp only [ht]
    rcases k with ⟨typ, runes, alt⟩
    cases typ with
    | KeyRunes =>
      cases runes with
      | nil => exact absurd rfl (hk rfl)
      | cons r rs =>
        refine ⟨_, _, rfl, rfl, rfl, rfl, rfl, Or.inl rfl, Or.inl rfl, fun _ _ => ⟨rfl, rfl⟩⟩
    | KeyBackspace =>
      by_cases hl : m.command.length > 0
      · simp only [hl, if_true]
        exact ⟨_, _, rfl, rfl, rfl, rfl, rfl, Or.inl rfl, Or.inl rfl, fun _ _ => ⟨rfl, rfl⟩⟩
      · simp only [hl, if_false]
        exact ⟨_, _, rfl, rfl, rfl, rfl, rfl, Or.inl rfl, Or.inl hm, fun _ _ => ⟨hm, rfl⟩⟩
    | KeyEnter =>
      exact ⟨_, _, rfl, rfl, rfl, rfl, rfl, Or.inr rfl, Or.inr rfl,
        fun he => by simp [Key.edits] at he⟩
    | KeyEsc =>
      exact ⟨_, _, rfl, rfl, rfl, rfl, rfl, Or.inl rfl, Or.inl hm,
        fun he => by simp [Key.edits] at he⟩
    | KeyTab =>
      exact ⟨_, _, rfl, rfl, rfl, rfl, rfl, Or.inl rfl, Or.inl hm,
        fun he => by simp [Key.edits] at he⟩
    | KeyShiftTab =>
      exact ⟨_, _, rfl, rfl, rfl, rfl, rfl, Or.inl rfl, Or.inl hm,
        fun he => by simp [Key.edits] at he⟩
    | KeyCtrlC =>
      exact ⟨_, _, rfl, rfl, rfl, rfl, rfl, Or.inl rfl, Or.inl hm,
        fun he => by simp [Key.edits] at he⟩
    | KeyOther name =>
      exact ⟨_, _, rfl, rfl, rfl, rfl, rfl, Or.inl rfl, Or.inl hm,
        fun he => by simp [Key.edits] at he⟩

theorem edits_runes (k : Key) (h : k.edits = true) : k.Typ = KeyType.KeyRunes → k.Runes ≠ [] := by
  intro ht hr
  simp [Key.edits, ht, hr] at h

theorem edit_keys_run (lib : Library) (ks : List Key) (m : model) (hm : m.commandMode = true)
    (hks : ∀ k ∈ ks, k.edits = true ∧ key.Matches k m.keybinds.toggleCommandMode = false) :
    ∃ m2, model.run lib m (ks.map Msg.KeyMsg) = some m2 ∧ m2.commandMode = true ∧
      m2.keybinds = m.keybinds ∧ m2.activeRegion = m.activeRegion ∧
      m2.addressBar = m.addressBar ∧ m2.viewport = m.viewport := by
  induction ks generalizing m with
  | nil => exact ⟨m, rfl, hm, rfl, rfl, rfl, rfl⟩
  | cons k ks ih =>
    have hk := hks k (List.mem_cons_self _ _)
    obtain ⟨m1, cmd, hstep, hkb, har, hab, hvp, _, _, hmode⟩ :=
      command_key_step lib m k hm (edits_runes k hk.1)
    obtain ⟨hm1, _⟩ := hmode hk.1 hk.2
    obtain ⟨m2, hrun, h1, h2, h3, h4, h5⟩ := ih m1 hm1 (fun x hx => by
      rw [hkb]; exact hks x (List.mem_cons_of_mem _ hx))
    refine ⟨m2, ?_, h1, h2.trans hkb, h3.trans har, h4.trans hab, h5.trans hvp⟩
    simp only [List.map_cons, model.run, hstep]
    exact hrun

/-- C11. Mode idempotence: for every root state in Normal mode, every toggle
key (a key the root reads as the command-mode toggle and not as the region
switch) and every sequence of keys typed while in CommandEntry, each a rune
key with at least one rune or a backspace and none of them read as the toggle:
pressing the toggle, handling the sequence and pressing the toggle again does
not panic and yields a state in Normal mode with an empty command buffer and
an empty mirrored command text in the status bar, with activeRegion, address
bar and viewport unchanged. -/
theorem toggle_twice_idempotent (lib : Library) (m : model) (t : Key) (ks : List Key)
    (hm : m.commandMode = false)
    (ht : key.Matches t m.keybinds.toggleCommandMode = true)
    (hn : key.Matches t m.keybinds.nextTab = false)
    (hks : ∀ k ∈ ks, k.edits = true ∧ key.Matches k m.keybinds.toggleCommandMode = false) :
    ∃ m2, model.run lib m (Msg.KeyMsg t :: (ks.map Msg.KeyMsg ++ [Msg.KeyMsg t])) = some m2 ∧
      m2.commandMode = false ∧ m2.command = [] ∧ m2.statusBar.commandEntry = [] ∧
      m2.activeRegion = m.activeRegion ∧ m2.addressBar = m.addressBar ∧
      m2.viewport = m.viewport := by
  obtain ⟨m1, hrun, hm1, hkb, har, hab, hvp⟩ := edit_keys_run lib ks
    { m with
      commandMode := true
      statusBar := (m.statusBar.Update lib (statusbar.CommandMsg (str ">"))).1 } rfl hks
  have hoff := toggle_off_step lib m1 t hm1 (by rw [hkb]; exact ht)
  refine ⟨{ m1 with
      commandMode := false
      command := []
      statusBar := (m1.statusBar.Update lib (statusbar.CommandMsg [])).1 },
    ?_, ?_, ?_, ?_, har, hab, hvp⟩
  · simp only [model.run, toggle_on_step lib m t hm hn ht, run_append, hrun, Option.bind, hoff]
  · rfl
  · rfl
  · rfl

/-- C11, after start-up: the toggle, the runes `l`, `s`, a backspace and a
two-byte rune, then the toggle again. -/
theorem toggle_twice_idempotent_witness :
    ∃ m2, model.run quietLibrary (newAppModel quietLibrary)
        (Msg.KeyMsg ⟨.KeyEsc, [], false⟩ ::
          ([⟨.KeyRunes, ['l'], false⟩, ⟨.KeyRunes, ['s'], false⟩, ⟨.KeyBackspace, [], false⟩,
            ⟨.KeyRunes, ['é'], false⟩].map Msg.KeyMsg ++ [Msg.KeyMsg ⟨.KeyEsc, [], false⟩]))
        = some m2 ∧
      m2.commandMode = false ∧ m2.command = [] ∧ m2.statusBar.commandEntry = [] ∧
      m2.activeRegion = (newAppModel quietLibrary).activeRegion ∧
      m2.addressBar = (newAppModel quietLibrary).addressBar ∧
      m2.viewport = (newAppModel quietLibrary).viewport :=
  toggle_twice_idempotent quietLibrary (newAppModel quietLibrary) ⟨.KeyEsc, [], false⟩
    [⟨.KeyRunes, ['l'], false⟩, ⟨.KeyRunes, ['s'], false⟩, ⟨.KeyBackspace, [], false⟩,
      ⟨.KeyRunes, ['é'], false⟩] rfl (by decide) (by decide) (by decide)

theorem forward_frame (lib : Library) (m : model) (msg : Msg) (m2 : model) (cmd : Cmd)
    (h : model.forward lib m msg = some (m2, cmd)) :
    m2.keybinds = m.keybinds ∧ m2.activeRegion = m.activeRegion ∧
      m2.commandMode = m.commandMode ∧ m2.command = m.command := by
  unfold model.forward at h
  by_cases h0 : m.activeRegion = 0
  · simp [h0] at h
    obtain ⟨rfl, _⟩ := h
    exact ⟨rfl, h0.symm, rfl, rfl⟩
  · by_cases h1 : m.activeRegion = 1
    · cases hv : m.viewport.Update lib msg with
      | none => simp [h1, hv] at h
      | some r =>
        simp [h1, hv] at h
        obtain ⟨rfl, _⟩ := h
        exact ⟨rfl, h1.symm, rfl, rfl⟩
    · simp [h0, h1] at h
      obtain ⟨rfl, _⟩ := h
      exact ⟨rfl, rfl, rfl, rfl⟩

/-- The invariant of the root: the default key bindings, an empty command
buffer whenever the mode is Normal, and a valid region. -/
theorem Update_invariant (lib : Library) (m : model) (msg : Msg) (m2 : model) (cmd : Cmd)
    (h : m.Update lib msg = some (m2, cmd))
    (hinv : m.keybinds = getDefaultKeyBinds ∧ (m.commandMode = false → m.command = []) ∧
      (m.activeRegion = 0 ∨ m.activeRegion = 1)) :
    m2.keybinds = getDefaultKeyBinds ∧ (m2.commandMode = false → m2.command = []) ∧
      (m2.activeRegion = 0 ∨ m2.activeRegion = 1) := by
  obtain ⟨hkb, hcmd, hreg⟩ := hinv
  have frame : ∀ m3 c3, model.forward lib m msg = some (m3, c3) →
      m3.keybinds = getDefaultKeyBinds ∧ (m3.commandMode = false → m3.command = []) ∧
      (m3.activeRegion = 0 ∨ m3.activeRegion = 1) := by
    intro m3 c3 h3
    obtain ⟨a, b, c, d⟩ := forward_frame lib m msg m3 c3 h3
    exact ⟨a.trans hkb, fun hf => d.trans (hcmd (c.symm.trans hf)), by rw [b]; exact hreg⟩
  cases msg with
  | KeyMsg k =>
    by_cases hm : m.commandMode = true
    · by_cases hr : k.Typ = KeyType.KeyRunes → k.Runes ≠ []
      · obtain ⟨m3, c3, hstep, h1, h2, _, _, _, h3, _⟩ := command_key_step lib m k hm hr
        rw [hstep] at h
        simp only [Option.some.injEq, Prod.mk.injEq] at h
        obtain ⟨rfl, _⟩ := h
        refine ⟨h1.trans hkb, ?_, by rw [h2]; exact hreg⟩
        intro hf
        rcases h3 with h3 | h3
        · rw [hf] at h3; exact absurd h3 (by decide)
        · exact h3
      · push_neg at hr
        rcases k with ⟨typ, runes, alt⟩
        obtain ⟨e1, e2⟩ := hr
        simp only at e1 e2
        subst e1 e2
        by_cases ht : key.Matches ⟨KeyType.KeyRunes, [], alt⟩ m.keybinds.toggleCommandMode = true
        · rw [toggle_off_step lib m _ hm ht] at h
          simp only [Option.some.injEq, Prod.mk.injEq] at h
          obtain ⟨rfl, _⟩ := h
          exact ⟨hkb, fun _ => rfl, hreg⟩
        · simp [model.Update, hm, ht] at h
    · have hm0 : m.commandMode = false := by simpa using hm
      unfold model.Update at h
      simp only [hm0, Bool.false_eq_true, if_false] at h
      by_cases hn : key.Matches k m.keybinds.nextTab = true
      · simp only [hn, if_true, Option.some.injEq, Prod.mk.injEq] at h
        obtain ⟨rfl, _⟩ := h
        refine ⟨hkb, fun _ => hcmd hm0, ?_⟩
        rcases hreg with h0 | h1
        · right; show Int.tmod (m.activeRegion + 1) 2 = 1; rw [h0]; decide
        · left; show Int.tmod (m.activeRegion + 1) 2 = 0; rw [h1]; decide
      · simp only [hn] at h
        by_cases ht : key.Matches k m.keybinds.toggleCommandMode = true
        · simp only [ht, if_true, Option.some.injEq, Prod.mk.injEq] at h
          obtain ⟨rfl, _⟩ := h
          exact ⟨hkb, fun hf => absurd hf (by simp), hreg⟩
        · simp only [ht] at h
          by_cases hq : key.Matches k m.keybinds.quit = true
          · simp only [hq, if_true, Option.some.injEq, Prod.mk.injEq] at h
            obtain ⟨rfl, _⟩ := h
            exact ⟨hkb, hcmd, hreg⟩
          · simp only [hq] at h
            exact frame m2 cmd h
  | WindowSizeMsg w ht =>
    simp only [model.Update, Option.some.injEq, Prod.mk.injEq] at h
    obtain ⟨rfl, _⟩ := h
    exact ⟨hkb, hcmd, hreg⟩
  | FreeText text =>
    unfold model.Update at h
    cases hv : m.viewport.Update lib (Msg.FreeText text) with
    | none => simp [hv] at h
    | some r =>
      simp only [hv, Option.some.injEq, Prod.mk.injEq] at h
      obtain ⟨rfl, _⟩ := h
      exact ⟨hkb, hcmd, hreg⟩
  | Trigger t =>
    cases t with
    | NewRequest =>
      simp only [model.Update, Option.some.injEq, Prod.mk.injEq] at h
      obtain ⟨rfl, _⟩ := h
      exact ⟨hkb, hcmd, hreg⟩
    | other n => exact frame m2 cmd h
  | Response body =>
    simp only [model.Update, Option.some.injEq, Prod.mk.injEq] at h
    obtain ⟨rfl, _⟩ := h
    exact ⟨hkb, hcmd, hreg⟩
  | statusUpdate s => exact frame m2 cmd h
  | commandInput text => exact frame m2 cmd h
  | ShortMessage text => exact frame m2 cmd h
  | Mode text => exact frame m2 cmd h
  | headerItem key value => exact frame m2 cmd h
  | requestHeaders hd => exact frame m2 cmd h
  | external tag => exact frame m2 cmd h

theorem run_invariant (lib : Library) (msgs : List Msg) (m m2 : model)
    (h : model.run lib m msgs = some m2)
    (hinv : m.keybinds = getDefaultKeyBinds ∧ (m.commandMode = false → m.command = []) ∧
      (m.activeRegion = 0 ∨ m.activeRegion = 1)) :
    m2.keybinds = getDefaultKeyBinds ∧ (m2.commandMode = false → m2.command = []) ∧
      (m2.activeRegion = 0 ∨ m2.activeRegion = 1) := by
  induction msgs generalizing m with
  | nil =>
    simp only [model.run, Option.some.injEq] at h
    rw [← h]; exact hinv
  | cons msg rest ih =>
    simp only [model.run] at h
    cases hs : m.Update lib msg with
    | none => simp [hs] at h
    | some r =>
      rw [hs] at h
      exact ih r.1 h (Update_invariant lib m msg r.1 r.2 hs hinv)

theorem reachable_invariant (lib : Library) (m : model) (h : Reachable lib m) :
    m.keybinds = getDefaultKeyBinds ∧ (m.commandMode = false → m.command = []) ∧
      (m.activeRegion = 0 ∨ m.activeRegion = 1) := by
  obtain ⟨msgs, hrun⟩ := h
  exact run_invariant lib msgs _ m hrun ⟨rfl, fun _ => rfl, Or.inl rfl⟩

theorem default_toggle_key (k : Key)
    (h : key.Matches k getDefaultKeyBinds.toggleCommandMode = true) :
    key.Matches k getDefaultKeyBinds.nextTab = false := by
  have hs : k.String = str "esc" := by
    simpa [key.Matches, getDefaultKeyBinds, key.NewBinding, key.Binding.Enabled] using h
  simp only [key.Matches, getDefaultKeyBinds, key.NewBinding, hs]
  decide

theorem enter_not_default_toggle (k : Key) (h : k.Typ = KeyType.KeyEnter) :
    key.Matches k getDefaultKeyBinds.toggleCommandMode = false := by
  rcases k with ⟨typ, runes, alt⟩
  simp only at h
  subst h
  cases alt <;> rfl

/-- C12. For every root state reachable from the initial model by any
sequence of messages, if it is in Normal mode then its command buffer is
empty, and handling the toggle key does not panic, returns no command and
yields a state in CommandEntry whose command buffer is empty and whose
status-bar mirrored command text is the command marker `>`. -/
theorem toggle_enters_command_mode (lib : Library) (m : model) (k : Key)
    (hr : Reachable lib m) (hm : m.commandMode = false)
    (hk : key.Matches k m.keybinds.toggleCommandMode = true) :
    m.command = [] ∧
    ∃ m2, m.Update lib (.KeyMsg k) = some (m2, []) ∧ m2.commandMode = true ∧
      m2.command = [] ∧ m2.statusBar.commandEntry = str ">" := by
  obtain ⟨hkb, hcmd, _⟩ := reachable_invariant lib m hr
  have hn : key.Matches k m.keybinds.nextTab = false := by
    rw [hkb] at hk ⊢
    exact default_toggle_key k hk
  exact ⟨hcmd hm, _, toggle_on_step lib m k hm hn hk, rfl, hcmd hm, rfl⟩

/-- C12, in the state reached from start-up by typing a command and
submitting it. -/
theorem toggle_enters_command_mode_witness :
    ∃ m, model.run quietLibrary (newAppModel quietLibrary)
        [.KeyMsg ⟨.KeyEsc, [], false⟩, .KeyMsg ⟨.KeyRunes, [':'], false⟩,
          .KeyMsg ⟨.KeyRunes, ['q'], false⟩, .KeyMsg ⟨.KeyEnter, [], false⟩] = some m ∧
      m.commandMode = false ∧ m.command = [] ∧
      ∃ m2, m.Update quietLibrary (.KeyMsg ⟨.KeyEsc, [], false⟩) = some (m2, []) ∧
        m2.commandMode = true ∧ m2.command = [] ∧ m2.statusBar.commandEntry = str ">" :=
  ⟨_, rfl, rfl,
    toggle_enters_command_mode quietLibrary _ ⟨.KeyEsc, [], false⟩
      ⟨[.KeyMsg ⟨.KeyEsc, [], false⟩, .KeyMsg ⟨.KeyRunes, [':'], false⟩,
        .KeyMsg ⟨.KeyRunes, ['q'], false⟩, .KeyMsg ⟨.KeyEnter, [], false⟩], rfl⟩ rfl rfl⟩

/-- C13. For every root state in CommandEntry with command buffer c, handling
the submit key (a key of type enter, which the default bindings never read as
the toggle) does not panic, returns the command of `getFreeTextCommand(c)`,
which resolves to the FreeText message carrying exactly c, and yields the
state in Normal mode with an empty command buffer, every other field (address
bar, viewport, activeRegion among them) unchanged. -/
theorem submit_command (lib : Library) (m : model) (k : Key)
    (hm : m.commandMode = true) (hk : k.Typ = KeyType.KeyEnter)
    (ht : key.Matches k m.keybinds.toggleCommandMode = false) :
    m.Update lib (.KeyMsg k) =
      some ({ m with command := [], commandMode := false }, [Prim.freeText m.command]) ∧
    (Prim.freeText m.command).resolve = some (.FreeText m.command) ∧
    key.Matches k getDefaultKeyBinds.toggleCommandMode = false := by
  refine ⟨?_, rfl, enter_not_default_toggle k hk⟩
  rcases k with ⟨typ, runes, alt⟩
  simp only at hk
  subst hk
  simp [model.Update, hm, ht, getFreeTextCommand]

/-- C13, after start-up, the toggle and the runes `:`, `w`. -/
theorem submit_command_witness :
    ∃ m, model.run quietLibrary (newAppModel quietLibrary)
        [.KeyMsg ⟨.KeyEsc, [], false⟩, .KeyMsg ⟨.KeyRunes, [':'], false⟩,
          .KeyMsg ⟨.KeyRunes, ['w'], false⟩] = some m ∧
      m.command = str ":w" ∧
      m.Update quietLibrary (.KeyMsg ⟨.KeyEnter, [], false⟩) =
        some ({ m with command := [], commandMode := false }, [Prim.freeText (str ":w")]) ∧
      (Prim.freeText (str ":w")).resolve = some (.FreeText (str ":w")) :=
  ⟨_, rfl, by decide,
    (submit_command quietLibrary _ ⟨.KeyEnter, [], false⟩ rfl rfl (by decide)).1, rfl⟩

/-- C14, the code at the failing input. In CommandEntry with an empty buffer,
the rune `é` (two bytes in a Go string) is appended whole, and the backspace
that follows cuts one byte, not the rune: the buffer holds the lone byte 0xC3
instead of being empty again. With the one-byte rune `a` the buffer is
restored. -/
theorem backspace_cuts_a_byte :
    (∃ m1 m2, appInCommandMode.Update quietLibrary (.KeyMsg ⟨.KeyRunes, ['é'], false⟩)
        = some (m1, []) ∧ m1.command = [0xC3, 0xA9] ∧
      m1.Update quietLibrary (.KeyMsg ⟨.KeyBackspace, [], false⟩) = some (m2, []) ∧
      m2.command = [0xC3] ∧ m2.command ≠ appInCommandMode.command) ∧
    (∃ m1 m2, appInCommandMode.Update quietLibrary (.KeyMsg ⟨.KeyRunes, ['a'], false⟩)
        = some (m1, []) ∧ m1.command = [0x61] ∧
      m1.Update quietLibrary (.KeyMsg ⟨.KeyBackspace, [], false⟩) = some (m2, []) ∧
      m2.command = appInCommandMode.command) :=
  ⟨⟨_, _, rfl, by decide, rfl, by decide, by decide⟩, ⟨_, _, rfl, by decide, rfl, by decide⟩⟩

/-- C15. While in CommandEntry the global bindings other than the toggle are
suppressed: for every root state in command mode and every key event (a rune
key carrying at least one rune), the region-switch key and the quit key
included, the update does not panic, leaves activeRegion, the address bar and
the viewport unchanged and does not return the quit command. -/
theorem command_mode_suppresses (lib : Library) (m : model) (k : Key)
    (hm : m.commandMode = true) (hk : k.Typ = KeyType.KeyRunes → k.Runes ≠ []) :
    ∃ m2 cmd, m.Update lib (.KeyMsg k) = some (m2, cmd) ∧
      m2.activeRegion = m.activeRegion ∧ m2.addressBar = m.addressBar ∧
      m2.viewport = m.viewport ∧ Prim.Quit ∉ cmd := by
  obtain ⟨m2, cmd, hstep, _, har, hab, hvp, hcmd, _, _⟩ := command_key_step lib m k hm hk
  refine ⟨m2, cmd, hstep, har, hab, hvp, ?_⟩
  rcases hcmd with h | h <;> simp [h, getFreeTextCommand]

/-- C15, in command mode after start-up, on the quit key and on the
region-switch key. -/
theorem command_mode_suppresses_witness :
    (∃ m2 cmd, appInCommandMode.Update quietLibrary (.KeyMsg ⟨.KeyCtrlC, [], false⟩)
        = some (m2, cmd) ∧
      m2.activeRegion = appInCommandMode.activeRegion ∧
      m2.addressBar = appInCommandMode.addressBar ∧
      m2.viewport = appInCommandMode.viewport ∧ Prim.Quit ∉ cmd) ∧
    (∃ m2 cmd, appInCommandMode.Update quietLibrary (.KeyMsg ⟨.KeyShiftTab, [], false⟩)
        = some (m2, cmd) ∧
      m2.activeRegion = appInCommandMode.activeRegion ∧
      m2.addressBar = appInCommandMode.addressBar ∧
      m2.viewport = appInCommandMode.viewport ∧ Prim.Quit ∉ cmd) :=
  ⟨command_mode_suppresses quietLibrary appInCommandMode ⟨.KeyCtrlC, [], false⟩ rfl
      (by decide),
    command_mode_suppresses quietLibrary appInCommandMode ⟨.KeyShiftTab, [], false⟩ rfl
      (by decide)⟩

/-! ## Focus and forwarding at the root: C16, C19 -/

theorem region_step (lib : Library) (m : model) (k : Key) (hm : m.commandMode = false)
    (hk : key.Matches k m.keybinds.nextTab = true) :
    m.Update lib (.KeyMsg k) =
      some ({ m with activeRegion := Int.tmod (m.activeRegion + 1) 2 }, []) := by
  simp [model.Update, hm, hk]

/-- C16. In Normal mode the region-switch key sets activeRegion to
(activeRegion + 1) mod 2 and changes nothing else, without panic or command;
in every state reachable from the initial model activeRegion is 0 or 1, so
there the key takes region 1 to 0 and region 0 to 1, and two presses restore
the state. -/
theorem region_switch (lib : Library) (m : model) (k : Key)
    (hr : Reachable lib m) (hm : m.commandMode = false)
    (hk : key.Matches k m.keybinds.nextTab = true) :
    (m.activeRegion = 0 ∨ m.activeRegion = 1) ∧
    m.Update lib (.KeyMsg k) =
      some ({ m with activeRegion := Int.tmod (m.activeRegion + 1) 2 }, []) ∧
    Int.tmod (m.activeRegion + 1) 2 = (m.activeRegion + 1) % 2 ∧
    (m.activeRegion = 1 → Int.tmod (m.activeRegion + 1) 2 = 0) ∧
    (m.activeRegion = 0 → Int.tmod (m.activeRegion + 1) 2 = 1) ∧
    model.run lib m [.KeyMsg k, .KeyMsg k] = some m := by
  obtain ⟨_, _, hreg⟩ := reachable_invariant lib m hr
  refine ⟨hreg, region_step lib m k hm hk, ?_, ?_, ?_, ?_⟩
  · rcases hreg with h | h <;> rw [h] <;> decide
  · intro h; rw [h]; decide
  · intro h; rw [h]; decide
  · have h2 := region_step lib { m with activeRegion := Int.tmod (m.activeRegion + 1) 2 } k hm hk
    simp only [model.run, region_step lib m k hm hk, h2]
    have hback : Int.tmod (Int.tmod (m.activeRegion + 1) 2 + 1) 2 = m.activeRegion := by
      rcases hreg with h | h <;> rw [h] <;> decide
    rw [hback]

/-- C16, after start-up (region 0) and after one press (region 1). -/
theorem region_switch_witness :
    (newAppModel quietLibrary).Update quietLibrary (.KeyMsg ⟨.KeyShiftTab, [], false⟩) =
      some ({ newAppModel quietLibrary with activeRegion := 1 }, []) ∧
    model.Update quietLibrary { newAppModel quietLibrary with activeRegion := 1 }
      (.KeyMsg ⟨.KeyShiftTab, [], false⟩) = some (newAppModel quietLibrary, []) ∧
    model.run quietLibrary (newAppModel quietLibrary)
      [.KeyMsg ⟨.KeyShiftTab, [], false⟩, .KeyMsg ⟨.KeyShiftTab, [], false⟩]
      = some (newAppModel quietLibrary) :=
  ⟨(region_switch quietLibrary (newAppModel quietLibrary) ⟨.KeyShiftTab, [], false⟩
      ⟨[], rfl⟩ rfl rfl).2.1,
   (region_switch quietLibrary { newAppModel quietLibrary with activeRegion := 1 }
      ⟨.KeyShiftTab, [], false⟩ ⟨[.KeyMsg ⟨.KeyShiftTab, [], false⟩], rfl⟩ rfl rfl).2.1,
   (region_switch quietLibrary (newAppModel quietLibrary) ⟨.KeyShiftTab, [], false⟩
      ⟨[], rfl⟩ rfl rfl).2.2.2.2.2⟩

/-- C19. For every root state in Normal mode and every message no root-level
case returns on (a key of no global binding, a spinner tick or any other
library message, a status, mode or header message), with a viewport that has
tabs and a header map: the update does not panic; the new status bar is
`statusBar.Update(msg)` whatever activeRegion is; with activeRegion 0 the
address bar becomes `addressBar.Update(msg)` and the viewport is unchanged;
with activeRegion 1 the viewport becomes `viewport.Update(msg)` and the
address bar is unchanged; the command batches the component's command with
the status bar's. -/
theorem forward_to_active_region (lib : Library) (m : model) (msg : Msg)
    (hm : m.commandMode = false) (hmsg : m.handles msg = false)
    (htabs : m.viewport.tabs ≠ []) (hhdr : m.viewport.headers ≠ none) :
    ∃ m2 cmd, m.Update lib msg = some (m2, cmd) ∧
      m2.statusBar = (m.statusBar.Update lib msg).1 ∧
      m2.activeRegion = m.activeRegion ∧ m2.commandMode = m.commandMode ∧
      m2.command = m.command ∧
      (m.activeRegion = 0 →
        m2.addressBar = (m.addressBar.Update lib msg).1 ∧ m2.viewport = m.viewport ∧
        cmd = (m.addressBar.Update lib msg).2 ++ (m.statusBar.Update lib msg).2) ∧
      (m.activeRegion = 1 →
        ∃ v c, m.viewport.Update lib msg = some (v, c) ∧
          m2.viewport = v ∧ m2.addressBar = m.addressBar ∧
          cmd = c ++ (m.statusBar.Update lib msg).2) := by
  have hup : m.Update lib msg = model.forward lib m msg := by
    cases msg with
    | KeyMsg k =>
      simp only [model.handles, Bool.or_eq_false_iff] at hmsg
      simp [model.Update, hm, hmsg.1.1, hmsg.1.2, hmsg.2]
    | Trigger t =>
      cases t with
      | NewRequest => simp [model.handles] at hmsg
      | other n => rfl
    | WindowSizeMsg w h => simp [model.handles] at hmsg
    | FreeText text => simp [model.handles] at hmsg
    | Response body => simp [model.handles] at hmsg
    | statusUpdate s => rfl
    | commandInput text => rfl
    | ShortMessage text => rfl
    | Mode text => rfl
    | headerItem key value => rfl
    | requestHeaders hd => rfl
    | external tag => rfl
  have hv : ∃ v c, m.viewport.Update lib msg = some (v, c) := by
    have hlen : m.viewport.tabs.length ≠ 0 := fun h => htabs (List.length_eq_zero.1 h)
    cases hh : m.viewport.headers with
    | none => exact absurd hh hhdr
    | some hd =>
      unfold viewport.Model.Update
      cases msg with
      | KeyMsg k =>
        by_cases h1 : key.Matches k m.viewport.keybinds.nextTab = true
        · simp [h1, hlen]
        · by_cases h2 : key.Matches k m.viewport.keybinds.previousTab = true
          · simp only [h1, h2, if_true, if_false]
            exact ⟨_, _, rfl⟩
          · simp only [h1, h2, if_false]
            exact ⟨_, _, rfl⟩
      | FreeText text => simp [model.handles] at hmsg
      | WindowSizeMsg w h => simp [model.handles] at hmsg
      | headerItem key value => simp [Header.Set, hh]
      | Trigger t => exact ⟨_, _, rfl⟩
      | Response body => exact ⟨_, _, rfl⟩
      | statusUpdate s => exact ⟨_, _, rfl⟩
      | commandInput text => exact ⟨_, _, rfl⟩
      | ShortMessage text => exact ⟨_, _, rfl⟩
      | Mode text => exact ⟨_, _, rfl⟩
      | requestHeaders hd2 => exact ⟨_, _, rfl⟩
      | external tag => exact ⟨_, _, rfl⟩
  rw [hup]
  unfold model.forward
  by_cases h0 : m.activeRegion = 0
  · simp only [h0, if_true]
    refine ⟨_, _, rfl, rfl, rfl, rfl, rfl, fun _ => ⟨rfl, rfl, rfl⟩, fun h => absurd h (by decide)⟩
  · by_cases h1 : m.activeRegion = 1
    · obtain ⟨v, c, hvc⟩ := hv
      simp only [h0, h1, if_true, if_false, hvc]
      refine ⟨_, _, rfl, rfl, rfl, rfl, rfl, fun h => absurd h (by decide),
        fun _ => ⟨v, c, rfl, rfl, rfl, rfl⟩⟩
    · simp only [h0, h1, if_false]
      exact ⟨_, _, rfl, rfl, rfl, rfl, rfl, fun h => h.elim, fun h => h.elim⟩

/-- C19, after start-up on a library message (a spinner tick), with the
address bar active and with the viewport active. -/
theorem forward_to_active_region_witness :
    (∃ m2 cmd, (newAppModel quietLibrary).Update quietLibrary (.external 7) = some (m2, cmd) ∧
      m2.statusBar = ((newAppModel quietLibrary).statusBar.Update quietLibrary (.external 7)).1 ∧
      m2.addressBar =
        ((newAppModel quietLibrary).addressBar.Update quietLibrary (.external 7)).1 ∧
      m2.viewport = (newAppModel quietLibrary).viewport) ∧
    (∃ m2 cmd v c,
      model.Update quietLibrary { newAppModel quietLibrary with activeRegion := 1 } (.external 7)
        = some (m2, cmd) ∧
      (newAppModel quietLibrary).viewport.Update quietLibrary (.external 7) = some (v, c) ∧
      m2.viewport = v ∧ m2.addressBar = (newAppModel quietLibrary).addressBar ∧
      m2.statusBar =
        ((newAppModel quietLibrary).statusBar.Update quietLibrary (.external 7)).1) := by
  obtain ⟨m2, cmd, h1, h2, _, _, _, h3, _⟩ :=
    forward_to_active_region quietLibrary (newAppModel quietLibrary) (.external 7) rfl rfl
      (by decide) (by decide)
  obtain ⟨n2, cmd2, g1, g2, _, _, _, _, g3⟩ :=
    forward_to_active_region quietLibrary { newAppModel quietLibrary with activeRegion := 1 }
      (.external 7) rfl rfl (by decide) (by decide)
  obtain ⟨v, c, g4, g5, g6, _⟩ := g3 rfl
  exact ⟨⟨m2, cmd, h1, h2, (h3 rfl).1, (h3 rfl).2.1⟩, ⟨n2, cmd2, v, c, g1, g4, g5, g6, g2⟩⟩

/-! ## Header edits and the spinner: C17, C18 -/

/-- C17, refuted as stated. The viewport `NewViewport` builds is disabled
(`enabled` is false) and its header map is empty; a HeaderItem message
(Accept, text/plain) puts the entry in the header map. -/
theorem header_edit_while_disabled :
    (viewport.NewViewport quietLibrary).enabled = false ∧
    (viewport.NewViewport quietLibrary).headers = some [] ∧
    ((viewport.NewViewport quietLibrary).Update quietLibrary
        (.headerItem (str "Accept") (str "text/plain"))).map (fun r => r.1.headers)
      = some (some [(str "Accept", [str "text/plain"])]) := by
  decide

/-- C17, amended. The enabled flag does not gate header edits: for every
viewport state that is disabled and has a header map, and every HeaderItem
message (key, value), `Update` binds the canonical key to the one value in
the header map, changes nothing else, and re-emits the new header set. -/
theorem header_edit_ignores_enabled (lib : Library) (v : viewport.Model)
    (key value : GoString) (entries : Header)
    (hd : v.enabled = false) (hh : v.headers = some entries) :
    v.Update lib (.headerItem key value) =
      some ({ v with headers := Header.Set lib (some entries) key value },
        [Prim.requestHeaders (Header.Set lib (some entries) key value)]) ∧
    Header.Set lib (some entries) key value =
      some ((lib.canonicalKey key, [value]) ::
        entries.filter (fun e => decide (e.1 ≠ lib.canonicalKey key))) ∧
    ({ v with headers := Header.Set lib (some entries) key value } : viewport.Model).enabled
      = false := by
  refine ⟨?_, rfl, hd⟩
  simp [viewport.Model.Update, hh, Header.Set]

/-- C17, amended, on the viewport of start-up and the header (Accept,
text/plain). -/
theorem header_edit_ignores_enabled_witness :
    (viewport.NewViewport quietLibrary).Update quietLibrary
        (.headerItem (str "Accept") (str "text/plain")) =
      some ({ viewport.NewViewport quietLibrary with
          headers := some [(str "Accept", [str "text/plain"])] },
        [Prim.requestHeaders (some [(str "Accept", [str "text/plain"])])]) :=
  (header_edit_ignores_enabled quietLibrary (viewport.NewViewport quietLibrary)
    (str "Accept") (str "text/plain") [] rfl rfl).1

/-- C18. No tick leak: for every status-bar state and every message, if the
status after the update is not PROCESSING then `Update` returns no command;
and when a status-value message sets PROCESSING while the spinner is not
running, the update marks the spinner running and returns exactly the
spinner's tick command. -/
theorem no_tick_leak (lib : Library) (s : statusbar.Model) (msg : Msg) :
    ((s.Update lib msg).1.status ≠ Status.PROCESSING → (s.Update lib msg).2 = []) ∧
    (s.spinning = false →
      s.Update lib (statusbar.StatusMsg Status.PROCESSING) =
        ({ s with status := Status.PROCESSING, spinning := true },
          [Prim.spinnerTick s.spinner])) := by
  constructor
  · intro h
    have hspin : ∀ t : statusbar.Model, (statusbar.Model.spin lib t msg).1.status
        ≠ Status.PROCESSING → (statusbar.Model.spin lib t msg).2 = [] := by
      intro t ht
      unfold statusbar.Model.spin at ht ⊢
      by_cases hp : t.status = Status.PROCESSING
      · exfalso
        by_cases hs : t.spinning = true
        · simp [hp, hs] at ht
        · simp [hp, hs] at ht
      · simp [hp]
    cases msg with
    | commandInput text => rfl
    | WindowSizeMsg w ht => rfl
    | ShortMessage text => rfl
    | Mode text => rfl
    | statusUpdate v => exact hspin _ h
    | KeyMsg k => exact hspin _ h
    | FreeText text => exact hspin _ h
    | Trigger t => exact hspin _ h
    | Response body => exact hspin _ h
    | headerItem key value => exact hspin _ h
    | requestHeaders hd => exact hspin _ h
    | external tag => exact hspin _ h
  · intro hs
    simp [statusbar.StatusMsg, statusbar.Model.Update, statusbar.Model.spin, hs]

/-- C18, on the status bar of start-up: a library message while idle returns no
command, and the PROCESSING status message starts the spinner. -/
theorem no_tick_leak_witness :
    ((statusbar.NewStatusBar quietLibrary).Update quietLibrary (.external 7)).2 = [] ∧
    (statusbar.NewStatusBar quietLibrary).Update quietLibrary
        (statusbar.StatusMsg Status.PROCESSING) =
      ({ statusbar.NewStatusBar quietLibrary with
          status := Status.PROCESSING, spinning := true },
        [Prim.spinnerTick (statusbar.NewStatusBar quietLibrary).spinner]) :=
  ⟨(no_tick_leak quietLibrary (statusbar.NewStatusBar quietLibrary) (.external 7)).1
      (by decide),
    (no_tick_leak quietLibrary (statusbar.NewStatusBar quietLibrary) (.external 7)).2 rfl⟩

/-! ## The shape of a parsed address: C20 -/

set_option maxRecDepth 100000 in
theorem upperByte_table :
    ∀ n : Fin 256, (⟨⟨n⟩⟩ : UInt8) < 128 →
      strings.upperByte ⟨⟨n⟩⟩ < 128 ∧
      ¬ (97 ≤ strings.upperByte ⟨⟨n⟩⟩ ∧ strings.upperByte ⟨⟨n⟩⟩ ≤ 122) ∧
      (strings.upperByte ⟨⟨n⟩⟩ = 32 → (⟨⟨n⟩⟩ : UInt8) = 32) := by
  decide

theorem upperByte_facts (c : UInt8) (h : c < 128) :
    strings.upperByte c < 128 ∧
    ¬ (97 ≤ strings.upperByte c ∧ strings.upperByte c ≤ 122) ∧
    (strings.upperByte c = 32 → c = 32) :=
  upperByte_table c.toBitVec.toFin h

theorem ToUpper_ascii (U : GoString → GoString) (s : GoString)
    (hascii : ∀ c ∈ s, c < 128) (hne : s ≠ []) (hsp : space ∉ s) :
    strings.ToUpper U s ≠ [] ∧ space ∉ strings.ToUpper U s ∧
      strings.ToUpper U (strings.ToUpper U s) = strings.ToUpper U s := by
  have hall : s.all (fun c => decide (c < 128)) = true := by
    simpa [List.all_eq_true] using hascii
  by_cases hlow : s.any (fun c => decide (97 ≤ c ∧ c ≤ 122)) = true
  · have hval : strings.ToUpper U s = s.map strings.upperByte := by
      simp only [strings.ToUpper, hall, hlow, if_true]
    have hall2 : (s.map strings.upperByte).all (fun c => decide (c < 128)) = true := by
      simp only [List.all_eq_true, List.mem_map, decide_eq_true_eq]
      rintro c ⟨x, hx, rfl⟩
      exact (upperByte_facts x (hascii x hx)).1
    have hlow2 : (s.map strings.upperByte).any (fun c => decide (97 ≤ c ∧ c ≤ 122)) = false := by
      rw [Bool.eq_false_iff]
      intro hany
      simp only [List.any_eq_true, List.mem_map, decide_eq_true_eq] at hany
      obtain ⟨c, ⟨x, hx, rfl⟩, hc⟩ := hany
      exact (upperByte_facts x (hascii x hx)).2.1 hc
    rw [hval]
    refine ⟨by simpa using hne, ?_, ?_⟩
    · intro hmem
      simp only [List.mem_map] at hmem
      obtain ⟨x, hx, hx32⟩ := hmem
      have hx2 : x = space := (upperByte_facts x (hascii x hx)).2.2 hx32
      rw [hx2] at hx
      exact hsp hx
    · simp only [strings.ToUpper, hall2, hlow2, if_true]
      simp
  · have hval : strings.ToUpper U s = s := by
      simp only [strings.ToUpper, hall, hlow, if_true]
      simp
    rw [hval]
    exact ⟨hne, hsp, hval⟩

theorem ToUpper_shape (U : GoString → GoString) (s : GoString)
    (hU : ∀ t : GoString, t ≠ [] → space ∉ t → (∃ c ∈ t, ¬ c < 128) →
      U t ≠ [] ∧ space ∉ U t ∧ strings.ToUpper U (U t) = U t)
    (hne : s ≠ []) (hsp : space ∉ s) :
    strings.ToUpper U s ≠ [] ∧ space ∉ strings.ToUpper U s ∧
      strings.ToUpper U (strings.ToUpper U s) = strings.ToUpper U s := by
  by_cases hascii : ∀ c ∈ s, c < 128
  · exact ToUpper_ascii U s hascii hne hsp
  · push_neg at hascii
    have hall : s.all (fun c => decide (c < 128)) = false := by
      rw [Bool.eq_false_iff]
      intro h
      simp only [List.all_eq_true, decide_eq_true_eq] at h
      obtain ⟨c, hc, hc2⟩ := hascii
      exact hc2 (h c hc)
    have hval : strings.ToUpper U s = U s := by
      simp only [strings.ToUpper, hall]
      simp
    rw [hval]
    exact hU s hne hsp hascii

/-- C20. For every address-bar text on which `GetAddress` succeeds, the
returned Url is non-empty and holds no space, and the returned Method is
non-empty, holds no space and is fixed by upper-casing; for a method with a
non-ASCII byte this rests on the library's Unicode upper-casing of a
non-empty space-free string being itself non-empty, space-free and fixed by
upper-casing. -/
theorem GetAddress_shape (lib : Library) (a : addressbar.Model) (addr : Address)
    (hU : ∀ t : GoString, t ≠ [] → space ∉ t → (∃ c ∈ t, ¬ c < 128) →
      lib.unicodeUpper t ≠ [] ∧ space ∉ lib.unicodeUpper t ∧
        strings.ToUpper lib.unicodeUpper (lib.unicodeUpper t) = lib.unicodeUpper t)
    (h : a.GetAddress lib = (addr, none)) :
    addr.Url ≠ [] ∧ space ∉ addr.Url ∧ addr.Method ≠ [] ∧ space ∉ addr.Method ∧
      strings.ToUpper lib.unicodeUpper addr.Method = addr.Method := by
  obtain ⟨l, r, _, _, _, hhead, hlast⟩ := Trim_split space a.input.Value
  unfold addressbar.Model.GetAddress at h
  by_cases h0 : (strings.Trim a.input.Value space).length = 0
  · simp [h0] at h
  · have hne : strings.Trim a.input.Value space ≠ [] := fun hnil => h0 (by rw [hnil]; rfl)
    simp only [h0, if_false, Prod.mk.injEq, and_true] at h
    have hfree := Split_free_tokens space (strings.Trim a.input.Value space)
    have hfirst := Split_head space _ hne hhead
    have hlst := Split_last space _ hne hlast
    cases hp : strings.Split (strings.Trim a.input.Value space) space with
    | nil => exact absurd hp (Split_ne_nil space _)
    | cons t ts =>
      rw [hp] at h hfree hfirst hlst
      have ht : t ≠ [] := fun hnil => hfirst (by simp [hnil])
      have htsp : space ∉ t := hfree t (List.mem_cons_self _ _)
      have hurl : (t :: ts).getLastD [] ≠ [] ∧ space ∉ (t :: ts).getLastD [] := by
        have hmem : (t :: ts).getLast (by simp) ∈ (t :: ts) := List.getLast_mem _
        have heq : (t :: ts).getLastD [] = (t :: ts).getLast (by simp) := by
          simp [List.getLastD_eq_getLast?, List.getLast?_eq_getLast]
        rw [heq]
        refine ⟨fun hnil => hlst ?_, hfree _ hmem⟩
        rw [List.getLast?_eq_getLast _ (by simp), hnil]
      rw [← h]
      refine ⟨hurl.1, hurl.2, ?_⟩
      show strings.ToUpper lib.unicodeUpper _ ≠ [] ∧ space ∉ strings.ToUpper lib.unicodeUpper _ ∧
        strings.ToUpper lib.unicodeUpper (strings.ToUpper lib.unicodeUpper _) =
          strings.ToUpper lib.unicodeUpper _
      by_cases hlen : (t :: ts).length > 1
      · simp only [hlen, if_true, List.headD_cons]
        exact ToUpper_shape lib.unicodeUpper t hU ht htsp
      · simp only [hlen, if_false]
        exact ToUpper_shape lib.unicodeUpper (str "GET") hU (by decide) (by decide)

/-- C20, on the address text `post /shops` with a library whose Unicode
upper-casing is the identity. -/
theorem GetAddress_shape_witness :
    (⟨str "POST", str "/shops"⟩ : Address).Url ≠ [] ∧
    space ∉ (⟨str "POST", str "/shops"⟩ : Address).Url ∧
    (⟨str "POST", str "/shops"⟩ : Address).Method ≠ [] ∧
    space ∉ (⟨str "POST", str "/shops"⟩ : Address).Method ∧
    strings.ToUpper quietLibrary.unicodeUpper (⟨str "POST", str "/shops"⟩ : Address).Method
      = (⟨str "POST", str "/shops"⟩ : Address).Method :=
  GetAddress_shape quietLibrary ⟨⟨"post /shops".data, 0⟩⟩ ⟨str "POST", str "/shops"⟩
    (by
      intro t hne hsp hna
      have hall : t.all (fun c => decide (c < 128)) = false := by
        rw [Bool.eq_false_iff]
        intro h
        simp only [List.all_eq_true, decide_eq_true_eq] at h
        obtain ⟨c, hc, hc2⟩ := hna
        exact hc2 (h c hc)
      refine ⟨hne, hsp, ?_⟩
      show strings.ToUpper (fun s => s) t = t
      simp only [strings.ToUpper, hall]
      simp)
    (by decide)

end Gurl
